import Mathlib

/-!
Verification of the cluster-membership and peer-transport core of the
`jravetch/etcd` repository, by a shallow embedding of the relevant Go
source into Lean 4.

The embedding covers:
* member-id and cluster-id derivation (SHA-1 based, `etcdserver`),
* `NewClusterFromString`, `Members`, `MemberIDs`, `genID`, `String`,
  `ValidateAndAssignIDs`, `AddMember`, `RemoveMember` from
  `src/etcdserver/cluster.go`,
* `genDNSClusterString` from `src/etcdmain/etcd.go`,
* `transport.Send` from `src/rafthttp/transport.go`.

Machine integers are represented as `Nat` with explicit reduction
modulo `2 ^ 32` / `2 ^ 64` where the Go code relies on fixed width.
Strings are represented by their character lists (`Str := List Char`);
all strings handled by the claims are ASCII, where Go's byte-wise
string order and operations agree with the code-point-wise ones used
here.
-/

namespace Etcd

/-- Strings of the embedding: Go strings as lists of characters. -/
abbrev Str := List Char

/-- Convert a Lean string literal to the embedding's string type. -/
def str (s : String) : Str := s.data

/-! ### Bitwise arithmetic on 32-bit words, via fueled structural recursion

`Nat`-valued 32-bit words; all operations reduce in the kernel. -/

/-- Bitwise XOR of the low `fuel` bits of two naturals. -/
def xorBits : Nat → Nat → Nat → Nat
  | 0, _, _ => 0
  | fuel + 1, a, b => (a % 2 + b % 2) % 2 + 2 * xorBits fuel (a / 2) (b / 2)

/-- Bitwise AND of the low `fuel` bits of two naturals. -/
def andBits : Nat → Nat → Nat → Nat
  | 0, _, _ => 0
  | fuel + 1, a, b => (a % 2) * (b % 2) + 2 * andBits fuel (a / 2) (b / 2)

/-- Bitwise OR of the low `fuel` bits of two naturals. -/
def orBits : Nat → Nat → Nat → Nat
  | 0, _, _ => 0
  | fuel + 1, a, b => (a % 2 + b % 2 - (a % 2) * (b % 2)) + 2 * orBits fuel (a / 2) (b / 2)

/-- 32-bit XOR. -/
def xor32 (a b : Nat) : Nat := xorBits 32 a b

/-- 32-bit AND. -/
def and32 (a b : Nat) : Nat := andBits 32 a b

/-- 32-bit OR. -/
def or32 (a b : Nat) : Nat := orBits 32 a b

/-- 32-bit complement (argument assumed `< 2 ^ 32`). -/
def not32 (a : Nat) : Nat := 2 ^ 32 - 1 - a

/-- Left-rotation of a 32-bit word by `n` bits (argument assumed `< 2 ^ 32`). -/
def rotl32 (x n : Nat) : Nat := (x * 2 ^ n) % 2 ^ 32 + x / 2 ^ (32 - n)

/-! ### SHA-1 -/

/-- The SHA-1 round function: choice, parity or majority depending on the round. -/
def sha1f (i b c d : Nat) : Nat :=
  if i < 20 then or32 (and32 b c) (and32 (not32 b) d)
  else if i < 40 then xor32 (xor32 b c) d
  else if i < 60 then or32 (or32 (and32 b c) (and32 b d)) (and32 c d)
  else xor32 (xor32 b c) d

/-- The SHA-1 round constants. -/
def sha1k (i : Nat) : Nat :=
  if i < 20 then 0x5A827999
  else if i < 40 then 0x6ED9EBA1
  else if i < 60 then 0x8F1BBCDC
  else 0xCA62C1D6

/-- Big-endian assembly of 4-byte groups into 32-bit words. -/
def toWords : List Nat → List Nat
  | b0 :: b1 :: b2 :: b3 :: rest => (((b0 * 256 + b1) * 256 + b2) * 256 + b3) :: toWords rest
  | _ => []

/-- Extend the 16 schedule words by `k` further words (`w[i] = rotl1 (w[i-3] ^ w[i-8] ^ w[i-14] ^ w[i-16])`). -/
def extendWords : Nat → List Nat → List Nat
  | 0, ws => ws
  | k + 1, ws =>
    let ws' := extendWords k ws
    let n := ws'.length
    ws' ++ [rotl32 (xor32 (xor32 (ws'.getD (n - 3) 0) (ws'.getD (n - 8) 0))
                          (xor32 (ws'.getD (n - 14) 0) (ws'.getD (n - 16) 0))) 1]

/-- One SHA-1 compression round: state `(a, b, c, d, e)`, round index and schedule word. -/
def sha1round (st : Nat × Nat × Nat × Nat × Nat) (iw : Nat × Nat) : Nat × Nat × Nat × Nat × Nat :=
  match st, iw with
  | (a, b, c, d, e), (i, w) =>
    ((rotl32 a 5 + sha1f i b c d + e + sha1k i + w) % 2 ^ 32, a, rotl32 b 30, c, d)

/-- Process one 64-byte chunk, updating the five hash words. -/
def sha1chunk (h : Nat × Nat × Nat × Nat × Nat) (chunk : List Nat) : Nat × Nat × Nat × Nat × Nat :=
  match h with
  | (h0, h1, h2, h3, h4) =>
    let ws := extendWords 64 (toWords chunk)
    match (List.zip (List.range 80) ws).foldl sha1round (h0, h1, h2, h3, h4) with
    | (a, b, c, d, e) =>
      ((h0 + a) % 2 ^ 32, (h1 + b) % 2 ^ 32, (h2 + c) % 2 ^ 32, (h3 + d) % 2 ^ 32, (h4 + e) % 2 ^ 32)

/-- Split a byte list into 64-byte chunks (fueled; `fuel` bounds the chunk count). -/
def chunks64 : Nat → List Nat → List (List Nat)
  | 0, _ => []
  | _, [] => []
  | fuel + 1, bs => bs.take 64 :: chunks64 fuel (bs.drop 64)

/-- SHA-1 padding: append `0x80`, zeros to 56 mod 64, then the 64-bit big-endian bit length. -/
def sha1pad (msg : List Nat) : List Nat :=
  let L := msg.length
  let zeros := (119 - L % 64) % 64
  let bitLen := 8 * L
  msg ++ [0x80] ++ List.replicate zeros 0 ++
    (List.range 8).map (fun i => bitLen / 2 ^ (8 * (7 - i)) % 256)

/-- The first eight bytes of the SHA-1 digest of `msg`, read as a big-endian
64-bit integer: `h0 * 2^32 + h1` of the final state. This is the value both
member-id and cluster-id derivation take. -/
def sha1First8 (msg : List Nat) : Nat :=
  let padded := sha1pad msg
  match (chunks64 (padded.length / 64) padded).foldl sha1chunk
      (0x67452301, 0xEFCDAB89, 0x98BADCFE, 0x10325476, 0xC3D2E1F0) with
  | (h0, h1, _, _, _) => h0 * 2 ^ 32 + h1

/-- Bytes of a string: code points (all strings in scope are ASCII, where this
coincides with Go's UTF-8 bytes). -/
def strBytes (s : Str) : List Nat := s.map Char.toNat

/-- Decimal digits of `n` (fueled; 20 digits cover every 64-bit value),
as in Go's `fmt.Sprintf("%d", n)`. -/
def decStrAux : Nat → Nat → Str
  | 0, _ => []
  | fuel + 1, n =>
    if n < 10 then [Char.ofNat (48 + n)]
    else decStrAux fuel (n / 10) ++ [Char.ofNat (48 + n % 10)]

/-- Go's `fmt.Sprintf("%d", n)` for a 64-bit value. -/
def decStr (n : Nat) : Str := decStrAux 20 n

/-- The 8-byte big-endian encoding of a 64-bit value
(`binary.BigEndian.PutUint64`). -/
def be8 (id : Nat) : List Nat := (List.range 8).map fun i => id / 2 ^ (8 * (7 - i)) % 256

/-! ### String splitting, as used by `NewClusterFromString` and `Cluster.String` -/

/-- Go's `strings.Split` on a single separator character: `splitOnChar c s`
returns the (always nonempty) list of separator-free segments. -/
def splitOnChar (c : Char) : Str → List Str
  | [] => [[]]
  | a :: rest =>
    match splitOnChar c rest with
    | [] => [[]]
    | g :: gs => if a = c then [] :: g :: gs else (a :: g) :: gs

/-- Go's `strings.Join` on a single separator character. -/
def intercalateChar (c : Char) : List Str → Str
  | [] => []
  | [p] => p
  | p :: ps => p ++ c :: intercalateChar c ps

/-- Split a query segment at its first `=`: `key=value` gives
`(key, some value)`, a segment without `=` gives `(segment, none)` —
exactly `net/url.parseQuery`'s key/value split. -/
def splitFirstEq : Str → Str × Option Str
  | [] => ([], none)
  | a :: rest =>
    if a = '=' then ([], some rest)
    else
      let kv := splitFirstEq rest
      (a :: kv.1, kv.2)

/-- One query segment as a key/value pair: `key=value` (the value may hold
further `=`), a segment without `=` carrying the empty value. -/
def decodeEntry (seg : Str) : Str × Str :=
  ((splitFirstEq seg).1, ((splitFirstEq seg).2).getD [])

/-- The key/value pairs of a comma-separated `name=url` cluster string, in
order: `url.ParseQuery (strings.Replace s "," "&")` on the class of strings
free of percent-escapes and `+`/`;`/`&` (where `QueryUnescape` is the
identity), as used by `NewClusterFromString` (src/etcdserver/cluster.go:67).
Empty segments are skipped, as in `parseQuery`. -/
def parsePairs (s : Str) : List (Str × Str) :=
  (splitOnChar ',' s).filterMap fun seg =>
    if seg = [] then none else some (decodeEntry seg)

/-- All key/value pairs carried by a group list, one per URL, in group
order — the flattening that `Cluster.String` serializes. -/
def pairsFlat (gs : List (Str × List Str)) : List (Str × Str) :=
  (gs.map fun g => g.2.map fun u => (g.1, u)).flatten

/-- The values recorded under key `k` in a pair list, in order of appearance:
what `url.Values` accumulates at `v[k]`. -/
def valuesOf (k : Str) (ps : List (Str × Str)) : List Str :=
  (ps.filter fun p => p.1 = k).map Prod.snd

/-- Remove the group of key `k` from a group list. -/
def removeKey (k : Str) : List (Str × List Str) → List (Str × List Str)
  | [] => []
  | g :: gs => if g.1 = k then removeKey k gs else g :: removeKey k gs

/-- Group a pair list by key: one group per distinct key, keys in order of
first occurrence, values in order of appearance — the contents of the
`url.Values` map built by `ParseQuery`, enumerated in first-occurrence
order (the Go map's iteration order is unspecified; every use below is
insensitive to it). -/
def groupPairs : List (Str × Str) → List (Str × List Str)
  | [] => []
  | (k, v) :: rest => (k, v :: valuesOf k rest) :: removeKey k (groupPairs rest)

/-! ### URL validation (modelled from the spec) -/

/-- `startsWith p s`: is `p` a prefix of `s`? (Go `strings.HasPrefix s p`.) -/
def startsWith : Str → Str → Bool
  | [], _ => true
  | _ :: _, [] => false
  | a :: p, b :: s => a = b && startsWith p s

/-- The remainder of `s` after prefix `p`, when `p` is a prefix. -/
def dropPrefix? : Str → Str → Option Str
  | [], s => some s
  | _ :: _, [] => none
  | a :: p, b :: s => if a = b then dropPrefix? p s else none

/-- Modelled from the spec: `pkg/types.NewURLs` / `pkg/flags.URLsValue.Set`,
which validate the URL strings of `NewClusterFromString`, are not under
`src/`. Per §3 a URL "carries scheme (`http`/`https`), host, port" and §7
rejects malformed URLs (`ErrMalformedURL`); so a URL string is accepted
exactly when it is `scheme ++ "://" ++ host ++ ":" ++ port` with `scheme`
`http` or `https`, nonempty host and port, and no path (no further `/`). -/
def validHostPort (hp : Str) : Bool :=
  let rev := hp.reverse
  let port := rev.takeWhile fun c => c ≠ ':'
  let rest := rev.dropWhile fun c => c ≠ ':'
  !port.isEmpty && !(rest.drop 1).isEmpty && !hp.contains '/'

/-- Validation of one URL string (see `validHostPort`). -/
def validURL (u : Str) : Bool :=
  match dropPrefix? (str "http://") u with
  | some hp => validHostPort hp
  | none =>
    match dropPrefix? (str "https://") u with
    | some hp => validHostPort hp
    | none => false

/-! ### Member (src/etcdserver, reconstructed `member.go`) -/

/-- One participant of the cluster: derived 64-bit `ID`, human-readable
`name`, the peer URLs carrying Raft traffic and the client URLs
(`Member` of the `etcdserver` package; URLs kept as their strings, as in
the Go record's `RaftAttributes.PeerURLs` / `Attributes.ClientURLs`). -/
structure Member where
  ID : Nat
  name : Str
  peerURLs : List Str
  clientURLs : List Str
deriving DecidableEq, Repr

instance : Inhabited Member := ⟨⟨0, [], [], []⟩⟩

/-- Modelled from the spec (§4.2): `member.go`'s `NewMember` is not under
`src/`, so its hash layout is fixed against the seven expected ids of
`TestMemberTime` (src/etcdserver/member_test.go:33-55): the id is the first
8 bytes, big-endian, of the SHA-1 of the concatenation of the member's peer
URL strings in ascending sorted order, then the cluster name, then the
decimal Unix time when a creation time is given. (§4.2's sketch — hosts
only, and cluster name only under `createdAt` — does not reproduce those
seven ids; this layout reproduces all of them, see the `memberTimeVectors`
theorem.) The member's name never enters the hash. Per §4.1(a) the stored
`peerURLs` keep their given order; only the hash input is sorted. -/
def NewMember (name : Str) (peerURLs : List Str) (clusterName : Str) (now : Option Nat) : Member :=
  let sorted := List.insertionSort (· ≤ ·) peerURLs
  let b := strBytes (sorted.foldr (· ++ ·) []) ++ strBytes clusterName ++
    (match now with
     | some t => strBytes (decStr t)
     | none => [])
  { ID := sha1First8 b, name := name, peerURLs := peerURLs, clientURLs := [] }

/-! ### Store (modelled from the spec)

The `store` package is not under `src/`; §6 gives the persisted layout
(`/0/members/<hexid>/raftAttributes`, `/0/members/<hexid>/attributes`,
`/0/removed_members/<hexid>`). Keys are represented structurally — the
three path shapes are pairwise distinct for all ids, since the 64-bit id's
hex rendering is injective, so the structural representation preserves
exactly the key-collision behavior. `Create` fails iff the key already
exists; recursive `Delete` of a member's directory fails iff nothing is
stored under it — the panics of `AddMember`/`RemoveMember`
(src/etcdserver/cluster.go:268-301) are modelled as `none`. -/

/-- A persisted store key (see the section comment for the path each
constructor stands for). -/
inductive StoreKey
  | memberRaftAttributes (id : Nat)
  | memberAttributes (id : Nat)
  | removedTombstone (id : Nat)
deriving DecidableEq, Repr

/-- The external Store, as the set of keys it holds (the JSON values the
code writes never influence any claimed behavior). -/
structure Store where
  keys : List StoreKey
deriving DecidableEq, Repr

/-- `store.Create`: fails iff the key exists. -/
def storeCreate (st : Store) (k : StoreKey) : Option Store :=
  if k ∈ st.keys then none else some ⟨k :: st.keys⟩

/-- Recursive `store.Delete` of the member directory `/0/members/<hexid>`:
removes both attribute keys; fails iff neither is present. -/
def storeDeleteMemberDir (st : Store) (id : Nat) : Option Store :=
  if StoreKey.memberRaftAttributes id ∈ st.keys ∨ StoreKey.memberAttributes id ∈ st.keys then
    some ⟨st.keys.filter fun k =>
      k ≠ StoreKey.memberRaftAttributes id ∧ k ≠ StoreKey.memberAttributes id⟩
  else none

/-! ### Cluster (src/etcdserver/cluster.go) -/

/-- A list of Members that belong to the same raft cluster
(src/etcdserver/cluster.go:51-59). The Go `map[uint64]*Member` is an
assoc-list keyed by `Member.ID`; `removed` is the set of removed ids; the
`store` is `none` until `SetStore` binds it (a `nil` store dereference is a
panic). -/
structure Cluster where
  id : Nat
  name : Str
  members : List Member
  removed : List Nat
  store : Option Store
deriving DecidableEq, Repr

/-- `newCluster` (src/etcdserver/cluster.go:131-137): zero id, no members,
no removed ids, no store. -/
def newCluster (name : Str) : Cluster :=
  { id := 0, name := name, members := [], removed := [], store := none }

/-- `c.members[m.ID] = m`: insert-or-replace keyed by id. -/
def mapInsert (ms : List Member) (m : Member) : List Member :=
  if ms.any fun x => x.ID = m.ID then ms.map fun x => if x.ID = m.ID then m else x
  else ms ++ [m]

/-- `Cluster.MemberIDs` (src/etcdserver/cluster.go:175-182): the member ids
sorted ascending. -/
def MemberIDs (c : Cluster) : List Nat :=
  List.insertionSort (· ≤ ·) (c.members.map Member.ID)

/-- `Cluster.genID` (src/etcdserver/cluster.go:254-262): the cluster id is
the first 8 bytes, big-endian, of the SHA-1 of the concatenation of the
8-byte big-endian encodings of the sorted member ids. -/
def genID (c : Cluster) : Cluster :=
  { c with id := sha1First8 ((MemberIDs c).map be8).flatten }

/-- The failure cases of `NewClusterFromString`
(src/etcdserver/cluster.go:64-87): the "Empty URL given" error, the URL
validation error of `URLsValue.Set`, and the "Member exists with identical
ID" error (the spec's `ErrDuplicateID`). -/
inductive ClusterError
  | emptyURL (name : Str)
  | invalidURL (u : Str)
  | duplicateID (id : Nat)
deriving DecidableEq, Repr

/-- The member-construction loop of `NewClusterFromString`
(src/etcdserver/cluster.go:71-84): for each name group, reject an empty
first URL, validate the URLs, derive the member and reject an id already
present. -/
def buildMembers (clusterName : Str) : List (Str × List Str) → List Member →
    Except ClusterError (List Member)
  | [], acc => .ok acc
  | (name, urls) :: rest, acc =>
    if urls.isEmpty || urls.headD [] = [] then .error (.emptyURL name)
    else
      match urls.find? fun u => !validURL u with
      | some u => .error (.invalidURL u)
      | none =>
        let m := NewMember name urls clusterName none
        if acc.any fun x => x.ID = m.ID then .error (.duplicateID m.ID)
        else buildMembers clusterName rest (acc ++ [m])

/-- `NewClusterFromString` (src/etcdserver/cluster.go:64-87): parse the
comma-separated `name=url` string, group by name, build one member per
group, then derive the cluster id. -/
def NewClusterFromString (name : Str) (cluster : Str) : Except ClusterError Cluster :=
  match buildMembers name (groupPairs (parsePairs cluster)) [] with
  | .error e => .error e
  | .ok ms => .ok (genID { newCluster name with members := ms })

/-- `Cluster.Members` (src/etcdserver/cluster.go:141-148): the members
sorted by id (`SortableMemberSlice`). -/
def Members (c : Cluster) : List Member :=
  List.insertionSort (fun a b => a.ID ≤ b.ID) c.members

/-- `Cluster.IsIDRemoved` (src/etcdserver/cluster.go:184-186). -/
def IsIDRemoved (c : Cluster) (id : Nat) : Bool := id ∈ c.removed

/-- `Cluster.String` (src/etcdserver/cluster.go:216-225): one `name=url`
entry per member and peer URL, sorted, comma-joined. -/
def clusterString (c : Cluster) : Str :=
  intercalateChar ','
    (List.insertionSort (· ≤ ·)
      ((c.members.map fun m => m.peerURLs.map fun u => m.name ++ '=' :: u).flatten))

/-- `Cluster.SetStore` (src/etcdserver/cluster.go:266). -/
def SetStore (c : Cluster) (st : Store) : Cluster := { c with store := some st }

/-- `Cluster.AddMember` (src/etcdserver/cluster.go:268-288): persist the two
attribute keys (each `Create` panics on failure, modelled as `none`), then
insert into the member map. A `nil` store is a panic. -/
def AddMember (c : Cluster) (m : Member) : Option Cluster :=
  match c.store with
  | none => none
  | some st =>
    match storeCreate st (StoreKey.memberRaftAttributes m.ID) with
    | none => none
    | some st1 =>
      match storeCreate st1 (StoreKey.memberAttributes m.ID) with
      | none => none
      | some st2 => some { c with members := mapInsert c.members m, store := some st2 }

/-- `Cluster.RemoveMember` (src/etcdserver/cluster.go:290-301): delete the
member's store subtree (panic if absent), drop it from the member map,
create the tombstone (panic if present), record the id as removed. -/
def RemoveMember (c : Cluster) (id : Nat) : Option Cluster :=
  match c.store with
  | none => none
  | some st =>
    match storeDeleteMemberDir st id with
    | none => none
    | some st1 =>
      match storeCreate st1 (StoreKey.removedTombstone id) with
      | none => none
      | some st2 =>
        some { c with members := c.members.filter fun x => x.ID ≠ id,
                      removed := id :: c.removed, store := some st2 }

/-- The errors of `ValidateAndAssignIDs` (src/etcdserver/cluster.go:231-252):
"member count is unequal" and "unmatched member while checking PeerURLs". -/
inductive ValidateError
  | countUnequal
  | unmatched
deriving DecidableEq, Repr

/-- Sort a member list by peer URLs (`SortableMemberSliceByPeerURLs`; its
definition sits in the absent `member.go` — modelled from the spec's "sort
both sides by peer URLs" as the lexicographic order on the URL-string
lists). -/
def sortByPeerURLs (ms : List Member) : List Member :=
  List.insertionSort (fun a b => a.peerURLs ≤ b.peerURLs) ms

/-- The check-and-transplant loop of `ValidateAndAssignIDs`
(src/etcdserver/cluster.go:241-246): position-wise, require equal
`peerURLs` and move the external id across. -/
def checkAndAssign : List Member → List Member → Except ValidateError (List Member)
  | [], [] => .ok []
  | o :: os, m :: ms =>
    if o.peerURLs = m.peerURLs then
      match checkAndAssign os ms with
      | .error e => .error e
      | .ok r => .ok ({ o with ID := m.ID } :: r)
    else .error .unmatched
  | _, _ => .error .unmatched

/-- `Cluster.ValidateAndAssignIDs` (src/etcdserver/cluster.go:231-252). -/
def ValidateAndAssignIDs (c : Cluster) (membs : List Member) : Except ValidateError Cluster :=
  if c.members.length ≠ membs.length then .error .countUnequal
  else
    match checkAndAssign (sortByPeerURLs c.members) (sortByPeerURLs membs) with
    | .error e => .error e
    | .ok oms => .ok { c with members := oms }

/-! ### DNS-SRV bootstrap (src/etcdmain/etcd.go, `genDNSClusterString`) -/

/-- One SRV answer, as `net.SRV` restricted to the fields the code reads
(priority and weight are ignored by the source, a documented non-goal). -/
structure SRV where
  target : Str
  port : Nat
deriving DecidableEq, Repr

/-- `net/url.URL` restricted to the fields `genDNSClusterString` reads from
an advertised peer URL. -/
structure URLRec where
  scheme : Str
  host : Str
deriving DecidableEq, Repr

/-- `net.JoinHostPort` (no IPv6 bracketing arises for the hosts in scope). -/
def joinHostPort (t : Str) (p : Nat) : Str := t ++ ':' :: decStr p

/-- Resolve every advertised peer URL's host (`net.ResolveTCPAddr` over
`apurls`, src/etcdmain/etcd.go:291-299); any failure aborts. The resolver
is a parameter of the embedding, standing for the ambient DNS. -/
def resolveAll (resolve : Str → Option Str) : List Str → Option (List Str)
  | [] => some []
  | h :: t =>
    match resolve h with
    | none => none
    | some a => (resolveAll resolve t).map (a :: ·)

/-- The per-answer loop of `updateNodeMap` (src/etcdmain/etcd.go:306-325):
resolve each SRV answer (skipping failures), set `n` to the caller's name
when the resolved address equals a resolved self-address (`n` starts as the
empty string), fall back to the running counter whenever `n` is still empty
(etcd.go:319-322 — so also when the caller's name itself is empty), and
append `label=prefix+address`. State: `(stringParts, tempName)`. -/
def processSRV (resolve : Str → Option Str) (name : Str) (tcpAPUrls : List Str)
    (pre : Str) : List SRV → List Str × Nat → List Str × Nat
  | [], st => st
  | srv :: rest, (parts, tempName) =>
    match resolve (joinHostPort srv.target srv.port) with
    | none => processSRV resolve name tcpAPUrls pre rest (parts, tempName)
    | some addr =>
      let n : Str := if addr ∈ tcpAPUrls then name else []
      if n = [] then
        processSRV resolve name tcpAPUrls pre rest
          (parts ++ [decStr tempName ++ '=' :: (pre ++ addr)], tempName + 1)
      else
        processSRV resolve name tcpAPUrls pre rest
          (parts ++ [n ++ '=' :: (pre ++ addr)], tempName)

/-- `genDNSClusterString` (src/etcdmain/etcd.go:286-345). The two SRV query
results (`_etcd-server-ssl._tcp` then `_etcd-server._tcp`) are passed in as
`Option (List SRV)` (`none` = lookup error), standing for `lookupSRV`; the
bootstrap fails (`none`) when resolving an advertised URL fails or both
queries fail, and otherwise returns the synthesized cluster string and the
supplied token. -/
def genDNSClusterString (resolve : Str → Option Str) (name defaultToken : Str)
    (apurls : List URLRec) (sslSRV plainSRV : Option (List SRV)) : Option (Str × Str) :=
  match resolveAll resolve (apurls.map URLRec.host) with
  | none => none
  | some tcpAPUrls =>
    let s1 : (List Str × Nat) × Nat :=
      match sslSRV with
      | none => (([], 0), 1)
      | some addrs => (processSRV resolve name tcpAPUrls (str "https://") addrs ([], 0), 0)
    let s2 : (List Str × Nat) × Nat :=
      match plainSRV with
      | none => (s1.1, s1.2 + 1)
      | some addrs => (processSRV resolve name tcpAPUrls (str "http://") addrs s1.1, s1.2)
    if s2.2 = 2 then none
    else some (intercalateChar ',' s2.1.1, defaultToken)

/-- The resolvable discovered addresses of one SRV pass, with the pass's
scheme prefix: the entries `updateNodeMap` does not `continue` past. -/
def srvResolved (resolve : Str → Option Str) (pre : Str) (entries : List SRV) :
    List (Str × Str) :=
  entries.filterMap fun s => (resolve (joinHostPort s.target s.port)).map fun a => (a, pre)

/-- The closed form of the emitted `label=prefix+address` parts for a
non-empty caller name: a self-matching address is labeled with the
caller's name (each time it is discovered), every other address with the
running counter, which starts at `k` and counts only non-self entries.
(With an empty caller name the `n == ""` fallback of the source labels
every entry with the counter instead.) -/
def specParts (name : Str) (selfAddrs : List Str) : List (Str × Str) → Nat → List Str
  | [], _ => []
  | (addr, pre) :: rest, k =>
    if addr ∈ selfAddrs then (name ++ '=' :: (pre ++ addr)) :: specParts name selfAddrs rest k
    else (decStr k ++ '=' :: (pre ++ addr)) :: specParts name selfAddrs rest (k + 1)

/-- How many discovered entries are labeled by the counter (non-self). -/
def countNonSelf (selfAddrs : List Str) (entries : List (Str × Str)) : Nat :=
  (entries.filter fun e => decide (e.1 ∉ selfAddrs)).length

/-! ### Transport hub (src/rafthttp/transport.go, `transport.Send`) -/

/-- The raft message types `transport.Send` distinguishes. -/
inductive MsgType
  | app
  | snap
  | other
deriving DecidableEq, Repr

/-- A raft message as `Send` reads it: destination id (`m.To`), type
(`m.Type`) and encoded size (`m.Size()`). -/
structure RaftMsg where
  To : Nat
  typ : MsgType
  size : Nat
deriving DecidableEq, Repr

/-- The transport hub state relevant to `Send`: the peer map (peer id to the
sequence of messages forwarded to that peer's sender) and the server-stats
send-append-bytes counter. The counter is modelled from the spec (§4.7):
`stats.ServerStats` is not under `src/`; per the spec it keeps "counters
for `send append req` ... bytes", and `SendAppendReq(m.Size())` adds the
message's size. -/
structure Transport where
  peers : List (Nat × List RaftMsg)
  sendAppendBytes : Nat
deriving DecidableEq, Repr

/-- One iteration of `transport.Send`'s loop
(src/rafthttp/transport.go:107-124): drop on `To == 0`; drop (log only) if
no sender is registered for `To`; otherwise count `MsgApp` bytes and
forward to the sender. -/
def sendOne (t : Transport) (m : RaftMsg) : Transport :=
  if m.To = 0 then t
  else
    match t.peers.find? fun p => p.1 = m.To with
    | none => t
    | some _ =>
      let t1 := if m.typ = .app then { t with sendAppendBytes := t.sendAppendBytes + m.size }
                else t
      { t1 with peers := t1.peers.map fun p => if p.1 = m.To then (p.1, p.2 ++ [m]) else p }

/-- `transport.Send` (src/rafthttp/transport.go:106-125). -/
def transportSend (t : Transport) (msgs : List RaftMsg) : Transport :=
  msgs.foldl sendOne t

/-- The messages `Send` forwards to the sender registered at id `k`: those
addressed to `k`, excluding the reserved id 0. -/
def deliveredTo (k : Nat) (msgs : List RaftMsg) : List RaftMsg :=
  msgs.filter fun m => decide (m.To = k ∧ m.To ≠ 0)

/-- The total `MsgApp` bytes `Send` accumulates on server stats: the sizes
of the `MsgApp` messages addressed (not to id 0) to a registered sender
(`reg`). -/
def appBytes (reg : Nat → Bool) : List RaftMsg → Nat
  | [] => 0
  | m :: msgs =>
    (if m.To ≠ 0 ∧ m.typ = .app ∧ reg m.To = true then m.size else 0) + appBytes reg msgs

/-- The observable profile of a member for round-trip comparison: id, name
and the peer-URL set represented by its sorted URL list. -/
def memberProfile (m : Member) : Nat × Str × List Str :=
  (m.ID, m.name, List.insertionSort (fun a b => a ≤ b) m.peerURLs)

end Etcd

deriving instance DecidableEq for Except

namespace Etcd

/-! ### Sorting lemmas -/

/-- Go's comparison-based sorts are insensitive to the input's order: two
permuted lists have the same sort. -/
theorem insertionSort_eq_of_perm {α : Type} [LinearOrder α] {l₁ l₂ : List α}
    (h : l₁.Perm l₂) :
    List.insertionSort (· ≤ ·) l₁ = List.insertionSort (· ≤ ·) l₂ :=
  List.eq_of_perm_of_sorted
    ((List.perm_insertionSort _ l₁).trans (h.trans (List.perm_insertionSort _ l₂).symm))
    (List.sorted_insertionSort _ l₁) (List.sorted_insertionSort _ l₂)

instance : IsTotal Member fun a b => a.ID ≤ b.ID := ⟨fun a b => Nat.le_total a.ID b.ID⟩

instance : IsTrans Member fun a b => a.ID ≤ b.ID := ⟨fun _ _ _ => Nat.le_trans⟩

instance : IsTotal Member fun a b => a.peerURLs ≤ b.peerURLs :=
  ⟨fun x y => le_total x.peerURLs y.peerURLs⟩

instance : IsTrans Member fun a b => a.peerURLs ≤ b.peerURLs := ⟨fun _ _ _ => le_trans⟩


/-! ### C8 — `transport.Send` semantics -/

/-- `sendOne` (one `Send` iteration) appends the message to every peer entry
keyed by its destination, exactly when the destination is nonzero and
registered. -/
theorem sendOne_peers (t : Transport) (m : RaftMsg) :
    (sendOne t m).peers = t.peers.map fun p =>
      if m.To = p.1 ∧ m.To ≠ 0 ∧ (t.peers.any fun q => q.1 = m.To) = true
      then (p.1, p.2 ++ [m]) else p := by
  unfold sendOne
  by_cases h0 : m.To = 0
  · simp [h0, List.map_id]
  · rw [if_neg h0]
    cases hf : t.peers.find? fun p => p.1 = m.To with
    | none =>
      have hany : (t.peers.any fun q => q.1 = m.To) = false := by
        rw [List.any_eq_false]
        intro x hx
        have := List.find?_eq_none.mp hf x hx
        simpa using this
      simp [hany, List.map_id]
    | some p0 =>
      have hany : (t.peers.any fun q => q.1 = m.To) = true := by
        rw [List.any_eq_true]
        exact ⟨p0, List.mem_of_find?_eq_some hf, by simpa using List.find?_some hf⟩
      by_cases ht : m.typ = .app <;>
        simp [ht, h0, hany] <;>
        · intro a b _
          by_cases hab : a = m.To
          · simp [hab]
          · simp [hab, Ne.symm hab]

theorem sendOne_bytes (t : Transport) (m : RaftMsg) :
    (sendOne t m).sendAppendBytes = t.sendAppendBytes +
      if m.To ≠ 0 ∧ m.typ = .app ∧ (t.peers.any fun q => q.1 = m.To) = true
      then m.size else 0 := by
  unfold sendOne
  by_cases h0 : m.To = 0
  · simp [h0]
  · rw [if_neg h0]
    cases hf : t.peers.find? fun p => p.1 = m.To with
    | none =>
      have hany : (t.peers.any fun q => q.1 = m.To) = false := by
        rw [List.any_eq_false]
        intro x hx
        have := List.find?_eq_none.mp hf x hx
        simpa using this
      simp [hany]
    | some p0 =>
      have hany : (t.peers.any fun q => q.1 = m.To) = true := by
        rw [List.any_eq_true]
        exact ⟨p0, List.mem_of_find?_eq_some hf, by simpa using List.find?_some hf⟩
      by_cases ht : m.typ = .app <;> simp [ht, h0, hany]

theorem sendOne_keys (t : Transport) (m : RaftMsg) :
    (sendOne t m).peers.map Prod.fst = t.peers.map Prod.fst := by
  rw [sendOne_peers, List.map_map]
  refine List.map_congr_left fun p _ => ?_
  simp only [Function.comp]
  split <;> rfl

theorem any_fst_eq {β : Type} (l : List (Nat × β)) (k : Nat) :
    (l.any fun q => q.1 = k) = ((l.map Prod.fst).any fun x => x = k) := by
  induction l with
  | nil => rfl
  | cons a l ih => simp [List.any_cons, ih]

theorem transportSend_cons (t : Transport) (m : RaftMsg) (msgs : List RaftMsg) :
    transportSend t (m :: msgs) = transportSend (sendOne t m) msgs := rfl

set_option maxHeartbeats 1000000 in
/-- C8: `Send` drops every message with `To == 0` and every message whose
`To` has no registered sender — without a panic or an error, the hub's
state other than the registered senders' queues and the stats counter being
unchanged — forwards each remaining message to the registered sender's
`Send`, and increments the server-stats send-append-bytes counter by the
size of each `MsgApp` among them. -/
theorem transportSend_spec (t : Transport) (msgs : List RaftMsg) :
    (transportSend t msgs).peers = (t.peers.map fun p => (p.1, p.2 ++ deliveredTo p.1 msgs)) ∧
    (transportSend t msgs).sendAppendBytes =
      t.sendAppendBytes + appBytes (fun k => t.peers.any fun q => q.1 = k) msgs := by
  induction msgs generalizing t with
  | nil => simp [transportSend, deliveredTo, appBytes]
  | cons m msgs ih =>
    have hkeys := sendOne_keys t m
    obtain ⟨ihp, ihb⟩ := ih (sendOne t m)
    have hreg : ∀ k, ((sendOne t m).peers.any fun q => q.1 = k) =
        (t.peers.any fun q => q.1 = k) := by
      intro k
      rw [any_fst_eq, hkeys, ← any_fst_eq]
    constructor
    · rw [transportSend_cons, ihp, sendOne_peers, List.map_map]
      refine List.map_congr_left fun p hp => ?_
      simp only [Function.comp]
      by_cases hc : m.To = p.1 ∧ m.To ≠ 0
      · have hany : (t.peers.any fun q => q.1 = m.To) = true := by
          rw [List.any_eq_true]
          exact ⟨p, hp, by simp [hc.1]⟩
        have hcond : m.To = p.1 ∧ m.To ≠ 0 ∧ (t.peers.any fun q => q.1 = m.To) = true :=
          ⟨hc.1, hc.2, hany⟩
        rw [if_pos hcond]
        have hp0 : ¬p.1 = 0 := fun h => hc.2 (hc.1.trans h)
        have hdel : deliveredTo p.1 (m :: msgs) = m :: deliveredTo p.1 msgs := by
          unfold deliveredTo
          rw [List.filter_cons]
          simp [hc.1, hc.2, hp0]
        simp [hdel, List.append_assoc]
      · have hcond : ¬(m.To = p.1 ∧ m.To ≠ 0 ∧ (t.peers.any fun q => q.1 = m.To) = true) :=
          fun h => hc ⟨h.1, h.2.1⟩
        rw [if_neg hcond]
        have hdel : deliveredTo p.1 (m :: msgs) = deliveredTo p.1 msgs := by
          unfold deliveredTo
          rw [List.filter_cons_of_neg (by simpa using hc)]
        rw [hdel]
    · rw [transportSend_cons, ihb, sendOne_bytes]
      simp only [hreg]
      simp [appBytes, Nat.add_assoc]

/-! ### Validation of the reconstructed id derivation

The embedding of `NewMember` reproduces all seven expected ids of
`TestMemberTime` (src/etcdserver/member_test.go:33-55); the `time.Time`
argument `timeParse "1984-12-23T15:04:05Z"` has Unix value `472662245`. -/

set_option maxRecDepth 1000000 in
set_option maxHeartbeats 4000000 in
/-- The seven `TestMemberTime` vectors, checked against the embedding. -/
theorem memberTimeVectors :
    (NewMember (str "mem1") [str "http://10.0.0.8:2379"] [] none).ID
        = 14544069596553697298 ∧
    (NewMember (str "memfoo") [str "http://10.0.0.8:2379"] [] none).ID
        = 14544069596553697298 ∧
    (NewMember (str "mem1") [str "http://10.0.0.8:2379"] [] (some 472662245)).ID
        = 2448790162483548276 ∧
    (NewMember (str "mcm1") [str "http://10.0.0.8:2379"] (str "etcd") (some 472662245)).ID
        = 6973882743191604649 ∧
    (NewMember (str "mem1") [str "http://10.0.0.1:2379"] [] (some 472662245)).ID
        = 1466075294948436910 ∧
    (NewMember (str "mem1") [str "http://10.0.0.1:2379", str "http://10.0.0.2:2379"] [] none).ID
        = 16552244735972308939 ∧
    (NewMember (str "mem1") [str "http://10.0.0.2:2379", str "http://10.0.0.1:2379"] [] none).ID
        = 16552244735972308939 := by
  refine ⟨?_, ?_, ?_, ?_, ?_, ?_, ?_⟩ <;> decide

/-! ### C1 — member id depends only on the peer-URL set -/

/-- C1: for every Member constructed with `createdAt` unset, the derived
64-bit id is unchanged under any permutation of the `peerURLs` list and
under any change of the member's name (the hash input is the sorted URL
list and the cluster name only). -/
theorem memberID_perm_and_name_invariant (n₁ n₂ cn : Str) (p₁ p₂ : List Str)
    (h : p₁.Perm p₂) :
    (NewMember n₁ p₁ cn none).ID = (NewMember n₂ p₂ cn none).ID := by
  simp only [NewMember]
  rw [insertionSort_eq_of_perm h]

set_option maxRecDepth 1000000 in
set_option maxHeartbeats 1000000 in
/-- C1 witness: the permutation hypothesis discharged on the two-URL vector
of `TestMemberTime`, with the name changed as well. -/
theorem memberID_perm_and_name_invariant_witness :
    (NewMember (str "mem1") [str "http://10.0.0.1:2379", str "http://10.0.0.2:2379"] [] none).ID =
    (NewMember (str "memfoo") [str "http://10.0.0.2:2379", str "http://10.0.0.1:2379"] [] none).ID :=
  memberID_perm_and_name_invariant _ _ _ _ _ (by decide)

/-! ### C3 — colliding derived ids are rejected -/

/-- A validated URL string is nonempty (it carries a scheme prefix). -/
theorem validURL_ne_nil {u : Str} (h : validURL u = true) : u ≠ [] :=
  fun he => by rw [he] at h; exact absurd h (by decide)

/-- C3: an initial-cluster string with two entries of distinct names whose
derived member ids collide is rejected: `NewClusterFromString` returns the
duplicate-id error ("Member exists with identical ID", the spec's
`ErrDuplicateID`) and no Cluster. -/
theorem duplicate_id_error (name s n₁ n₂ u₁ u₂ : Str)
    (hparse : groupPairs (parsePairs s) = [(n₁, [u₁]), (n₂, [u₂])])
    (_hne : n₁ ≠ n₂)
    (hv₁ : validURL u₁ = true) (hv₂ : validURL u₂ = true)
    (hid : (NewMember n₁ [u₁] name none).ID = (NewMember n₂ [u₂] name none).ID) :
    NewClusterFromString name s = .error (.duplicateID (NewMember n₂ [u₂] name none).ID) := by
  unfold NewClusterFromString
  rw [hparse]
  simp [buildMembers, hv₁, hv₂, validURL_ne_nil hv₁, validURL_ne_nil hv₂, hid]

set_option maxRecDepth 1000000 in
set_option maxHeartbeats 4000000 in
/-- C3 witness: `"a=http://x:1,b=http://x:1"` carries two entries with
distinct names and equal derived ids (same peer URL); construction fails
with the duplicate-id error. -/
theorem duplicate_id_error_witness :
    NewClusterFromString (str "e") (str "a=http://x:1,b=http://x:1") =
      .error (.duplicateID (NewMember (str "b") [str "http://x:1"] (str "e") none).ID) :=
  duplicate_id_error (str "e") (str "a=http://x:1,b=http://x:1") (str "a") (str "b")
    (str "http://x:1") (str "http://x:1") (by decide) (by decide) (by decide) (by decide)
    (by decide)

/-! ### C2 — cluster-id derivation (corrected: not re-derived on
membership change)

`genID` computes the id from the sorted member ids, and only
`NewClusterFromString` invokes it (src/etcdserver/cluster.go:85);
`AddMember`/`RemoveMember` leave the stored cluster id untouched. -/

/-- C2 (amended): a cluster built by `NewClusterFromString` has id equal to
the first 8 bytes (big-endian) of the SHA-1 of the concatenated 8-byte
big-endian encodings of its member ids sorted ascending; `genID` depends
only on the multiset of member ids; and `AddMember`/`RemoveMember` do not
re-derive the id. -/
theorem clusterID_spec :
    (∀ n s c, NewClusterFromString n s = .ok c →
        c.id = sha1First8 (((List.insertionSort (· ≤ ·)
          (c.members.map Member.ID)).map be8).flatten)) ∧
    (∀ c₁ c₂ : Cluster, (c₁.members.map Member.ID).Perm (c₂.members.map Member.ID) →
        (genID c₁).id = (genID c₂).id) ∧
    (∀ c m c', AddMember c m = some c' → c'.id = c.id) ∧
    (∀ c i c', RemoveMember c i = some c' → c'.id = c.id) := by
  refine ⟨?_, ?_, ?_, ?_⟩
  · intro n s c h
    unfold NewClusterFromString at h
    cases hb : buildMembers n (groupPairs (parsePairs s)) [] <;> rw [hb] at h
    · cases h
    · cases h
      rfl
  · intro c₁ c₂ h
    simp only [genID, MemberIDs]
    rw [insertionSort_eq_of_perm h]
  · intro c m c' h
    unfold AddMember at h
    repeat' split at h
    all_goals cases h
    all_goals rfl
  · intro c i c' h
    unfold RemoveMember at h
    repeat' split at h
    all_goals cases h
    all_goals rfl

set_option maxRecDepth 1000000 in
set_option maxHeartbeats 4000000 in
/-- C2 witness: the derivation conjunct at the one-member bootstrap string
`"a=http://x:1"` with cluster name `"e"`; the two numerals are the derived
member id and cluster id. -/
theorem clusterID_spec_witness :
    (⟨9027331154003392384, str "e",
      [⟨11102607028087359486, str "a", [str "http://x:1"], []⟩], [], none⟩ : Cluster).id =
    sha1First8 (((List.insertionSort (· ≤ ·)
      ((⟨9027331154003392384, str "e",
        [⟨11102607028087359486, str "a", [str "http://x:1"], []⟩], [],
        none⟩ : Cluster).members.map Member.ID)).map be8).flatten) :=
  clusterID_spec.1 (str "e") (str "a=http://x:1") _ (by decide)

set_option maxRecDepth 1000000 in
set_option maxHeartbeats 4000000 in
/-- C2 counterexample to "re-derived on every membership change": build a
one-member cluster, bind a store, `AddMember` a second member. The stored
cluster id is unchanged (`true`) and no longer equals the derivation from
the current sorted member ids (`false`) — the id is not re-derived. -/
theorem clusterID_not_rederived_counterexample :
    ((NewClusterFromString (str "e") (str "a=http://x:1")).toOption.bind fun c =>
      (AddMember (SetStore c ⟨[]⟩) ⟨5, str "b", [str "http://y:2"], []⟩).map fun c' =>
        (decide (c'.id = c.id),
         decide (c'.id = sha1First8 (((List.insertionSort (· ≤ ·)
           (c'.members.map Member.ID)).map be8).flatten)))) = some (true, false) := by
  decide

/-! ### C5 — removed ids recorded; `AddMember` does not enforce non-reuse
(corrected)

`RemoveMember` records the id in `removed` (src/etcdserver/cluster.go:300),
but `AddMember` (src/etcdserver/cluster.go:268-288) never consults
`removed`: after the member's store subtree is deleted, both `Create`
calls succeed again, so re-adding a removed id does not panic. -/

/-- Every insert-or-replace leaves the inserted member in the map. -/
theorem mem_mapInsert_self (ms : List Member) (m : Member) : m ∈ mapInsert ms m := by
  unfold mapInsert
  split
  · next h =>
    rw [List.any_eq_true] at h
    obtain ⟨x, hx, hxe⟩ := h
    rw [List.mem_map]
    refine ⟨x, hx, ?_⟩
    simp only [decide_eq_true_eq] at hxe
    simp [hxe]
  · simp

/-- `AddMember` succeeds (no panic) whenever the member's two attribute
keys are absent from the bound store, and the member lands in the map. -/
theorem addMember_of_fresh (c : Cluster) (m : Member) (st : Store)
    (hs : c.store = some st)
    (h1 : StoreKey.memberRaftAttributes m.ID ∉ st.keys)
    (h2 : StoreKey.memberAttributes m.ID ∉ st.keys) :
    ∃ c'', AddMember c m = some c'' ∧ m ∈ c''.members := by
  unfold AddMember storeCreate
  rw [hs]
  dsimp only
  have h2' : StoreKey.memberAttributes m.ID ∉ StoreKey.memberRaftAttributes m.ID :: st.keys := by
    simp [h2]
  rw [if_neg h1]
  dsimp only
  rw [if_neg h2']
  exact ⟨_, rfl, mem_mapInsert_self _ m⟩

/-- C5 (amended): after a successful `RemoveMember id` the id is recorded
in the removed set, but `AddMember` does not consult it: a subsequent
`AddMember` of a member carrying that same id succeeds without a panic
(its store keys were deleted by the removal) and re-inserts the member. -/
theorem removeMember_records_and_addMember_succeeds
    (c : Cluster) (i : Nat) (c' : Cluster) (m : Member)
    (hrm : RemoveMember c i = some c') (hm : m.ID = i) :
    i ∈ c'.removed ∧ ∃ c'', AddMember c' m = some c'' ∧ m ∈ c''.members := by
  unfold RemoveMember at hrm
  repeat' split at hrm
  all_goals cases hrm
  rename_i ox st hs oy st1 hd oz st2 ht
  have hkeys : StoreKey.memberRaftAttributes i ∉ st1.keys ∧
      StoreKey.memberAttributes i ∉ st1.keys := by
    unfold storeDeleteMemberDir at hd
    split at hd
    · cases hd
      constructor <;> intro hmem <;>
        · have := List.of_mem_filter hmem
          simp at this
    · cases hd
  have hst2 : st2 = ⟨StoreKey.removedTombstone i :: st1.keys⟩ := by
    unfold storeCreate at ht
    split at ht
    · cases ht
    · cases ht; rfl
  refine ⟨List.mem_cons_self _ _, ?_⟩
  subst hst2 hm
  refine addMember_of_fresh _ m _ rfl ?_ ?_
  · simp [hkeys.1]
  · simp [hkeys.2]

/-- C5 witness: a persisted one-member cluster; removing id 5 yields the
explicit cluster whose removed set holds 5, and re-adding a member with
id 5 succeeds. -/
theorem removeMember_records_and_addMember_succeeds_witness :
    5 ∈ (⟨0, str "e", [], [5], some ⟨[StoreKey.removedTombstone 5]⟩⟩ : Cluster).removed ∧
    ∃ c'', AddMember (⟨0, str "e", [], [5],
        some ⟨[StoreKey.removedTombstone 5]⟩⟩ : Cluster)
        (⟨5, str "b", [str "http://y:2"], []⟩ : Member) = some c'' ∧
      (⟨5, str "b", [str "http://y:2"], []⟩ : Member) ∈ c''.members :=
  removeMember_records_and_addMember_succeeds
    (⟨0, str "e", [⟨5, str "a", [str "http://x:1"], []⟩], [],
      some ⟨[StoreKey.memberRaftAttributes 5, StoreKey.memberAttributes 5]⟩⟩ : Cluster) 5
    (⟨0, str "e", [], [5], some ⟨[StoreKey.removedTombstone 5]⟩⟩ : Cluster)
    (⟨5, str "b", [str "http://y:2"], []⟩ : Member) (by decide) rfl

/-- C5 counterexample to "AddMember of a removed id panics": add member 5,
remove it, add it again — every step succeeds (`some`), the removed set
records 5, and the member is back in the map; no step panics. -/
theorem removed_id_readd_no_panic_counterexample :
    ((AddMember (SetStore (newCluster (str "e")) ⟨[]⟩)
        ⟨5, str "b", [str "http://y:2"], []⟩).bind fun c1 =>
      (RemoveMember c1 5).bind fun c2 =>
        (AddMember c2 ⟨5, str "b", [str "http://y:2"], []⟩).map fun c3 =>
          (decide (5 ∈ c2.removed),
           decide ((⟨5, str "b", [str "http://y:2"], []⟩ : Member) ∈ c3.members))) =
      some (true, true) := by decide

/-! ### C7 — `ValidateAndAssignIDs` -/

/-- The check-and-transplant loop errors iff some position disagrees on
`peerURLs`; on success it returns the position-wise id transplant. -/
theorem checkAndAssign_spec : ∀ os ms : List Member, os.length = ms.length →
    (((∃ e, checkAndAssign os ms = .error e) ↔
      ∃ i, i < os.length ∧ (os.getD i default).peerURLs ≠ (ms.getD i default).peerURLs) ∧
    (∀ r, checkAndAssign os ms = .ok r →
      r = List.zipWith (fun o m => { o with ID := m.ID }) os ms))
  | [], [], _ => by
    refine ⟨⟨?_, ?_⟩, ?_⟩
    · rintro ⟨e, he⟩
      simp [checkAndAssign] at he
    · rintro ⟨i, hi, _⟩
      exact absurd hi (by simp)
    · intro r hr
      simp [checkAndAssign] at hr
      simp [hr]
  | [], _ :: _, h => by simp at h
  | _ :: _, [], h => by simp at h
  | o :: os, m :: ms, h => by
    have hlen : os.length = ms.length := by simpa using h
    obtain ⟨ih1, ih2⟩ := checkAndAssign_spec os ms hlen
    by_cases hp : o.peerURLs = m.peerURLs
    · refine ⟨⟨?_, ?_⟩, ?_⟩
      · rintro ⟨e, he⟩
        rw [checkAndAssign, if_pos hp] at he
        cases hc : checkAndAssign os ms with
        | error e' =>
          obtain ⟨i, hi, hne⟩ := ih1.mp ⟨e', hc⟩
          exact ⟨i + 1, by simpa using hi, by simpa using hne⟩
        | ok r =>
          rw [hc] at he
          cases he
      · rintro ⟨i, hi, hne⟩
        cases i with
        | zero => exact absurd hp (by simpa using hne)
        | succ i =>
          obtain ⟨e, he⟩ := ih1.mpr ⟨i, by simpa using hi, by simpa using hne⟩
          exact ⟨e, by rw [checkAndAssign, if_pos hp, he]⟩
      · intro r hr
        rw [checkAndAssign, if_pos hp] at hr
        cases hc : checkAndAssign os ms with
        | error e =>
          rw [hc] at hr
          cases hr
        | ok r' =>
          rw [hc] at hr
          cases hr
          simp [ih2 r' hc]
    · refine ⟨⟨?_, ?_⟩, ?_⟩
      · intro _
        exact ⟨0, by simp, by simpa using hp⟩
      · intro _
        exact ⟨.unmatched, by rw [checkAndAssign, if_neg hp]⟩
      · intro r hr
        rw [checkAndAssign, if_neg hp] at hr
        cases hr

/-- Transplanting ids keeps exactly the external side's ids. -/
theorem map_id_zipWith_assign : ∀ os ms : List Member, os.length = ms.length →
    (List.zipWith (fun o m => ({ o with ID := m.ID } : Member)) os ms).map Member.ID =
      ms.map Member.ID
  | [], [], _ => rfl
  | [], _ :: _, h => by simp at h
  | _ :: _, [], h => by simp at h
  | o :: os, m :: ms, h => by
    have hlen : os.length = ms.length := by simpa using h
    simp [map_id_zipWith_assign os ms hlen]

/-- C7: `ValidateAndAssignIDs external` errors iff the external list's
length differs from the member count or, after sorting both sides by peer
URLs, some position disagrees on `peerURLs`; on success every existing
member receives the external id at its sorted position, the member map is
re-keyed by exactly the external ids, and everything else is unchanged. -/
theorem validateAndAssignIDs_spec (c : Cluster) (ext : List Member) :
    ((∃ e, ValidateAndAssignIDs c ext = .error e) ↔
      c.members.length ≠ ext.length ∨
        ∃ i, i < c.members.length ∧
          ((sortByPeerURLs c.members).getD i default).peerURLs ≠
            ((sortByPeerURLs ext).getD i default).peerURLs) ∧
    (∀ c', ValidateAndAssignIDs c ext = .ok c' →
      c'.members = List.zipWith (fun o m => { o with ID := m.ID })
          (sortByPeerURLs c.members) (sortByPeerURLs ext) ∧
      c'.members.map Member.ID = (sortByPeerURLs ext).map Member.ID ∧
      c'.id = c.id ∧ c'.name = c.name ∧ c'.removed = c.removed) := by
  unfold ValidateAndAssignIDs
  by_cases hlen : c.members.length ≠ ext.length
  · rw [if_pos hlen]
    refine ⟨⟨fun _ => Or.inl hlen, fun _ => ⟨.countUnequal, rfl⟩⟩, ?_⟩
    intro c' h
    cases h
  · rw [if_neg hlen]
    push_neg at hlen
    have hsortlen : (sortByPeerURLs c.members).length = c.members.length := by
      unfold sortByPeerURLs
      exact (List.perm_insertionSort _ _).length_eq
    have hsortlen2 : (sortByPeerURLs ext).length = ext.length := by
      unfold sortByPeerURLs
      exact (List.perm_insertionSort _ _).length_eq
    have hslen : (sortByPeerURLs c.members).length = (sortByPeerURLs ext).length := by
      rw [hsortlen, hsortlen2, hlen]
    obtain ⟨h1, h2⟩ := checkAndAssign_spec _ _ hslen
    cases hc : checkAndAssign (sortByPeerURLs c.members) (sortByPeerURLs ext) with
    | error e =>
      refine ⟨⟨fun _ => ?_, fun _ => ⟨e, rfl⟩⟩, ?_⟩
      · obtain ⟨i, hi, hne⟩ := h1.mp ⟨e, hc⟩
        exact Or.inr ⟨i, hsortlen ▸ hi, hne⟩
      · intro c' h
        cases h
    | ok r =>
      refine ⟨⟨?_, ?_⟩, ?_⟩
      · rintro ⟨e, he⟩
        cases he
      · intro hor
        cases hor with
        | inl h => exact absurd hlen h
        | inr h =>
          obtain ⟨i, hi, hne⟩ := h
          obtain ⟨e, he⟩ := h1.mpr ⟨i, hsortlen.symm ▸ hi, hne⟩
          rw [he] at hc
          cases hc
      · intro c' h
        cases h
        have hr := h2 r hc
        refine ⟨hr, ?_, rfl, rfl, rfl⟩
        rw [hr, map_id_zipWith_assign _ _ hslen]

/-- C7 witness: a one-member cluster (id 1) validated against an external
one-member list with the same peer URL and id 9: validation succeeds and
the member's id becomes 9; id, name, removed are untouched. -/
theorem validateAndAssignIDs_spec_witness :
    ((⟨7, str "e", [⟨9, str "a", [str "http://x:1"], []⟩], [], none⟩ : Cluster).members =
      List.zipWith (fun o m => { o with ID := m.ID })
        (sortByPeerURLs [⟨1, str "a", [str "http://x:1"], []⟩])
        (sortByPeerURLs [⟨9, str "b", [str "http://x:1"], []⟩])) ∧
    (⟨7, str "e", [⟨9, str "a", [str "http://x:1"], []⟩], [],
        none⟩ : Cluster).members.map Member.ID =
      (sortByPeerURLs [⟨9, str "b", [str "http://x:1"], []⟩]).map Member.ID ∧
    (⟨7, str "e", [⟨9, str "a", [str "http://x:1"], []⟩], [], none⟩ : Cluster).id =
      (⟨7, str "e", [⟨1, str "a", [str "http://x:1"], []⟩], [], none⟩ : Cluster).id ∧
    (⟨7, str "e", [⟨9, str "a", [str "http://x:1"], []⟩], [], none⟩ : Cluster).name =
      (⟨7, str "e", [⟨1, str "a", [str "http://x:1"], []⟩], [], none⟩ : Cluster).name ∧
    (⟨7, str "e", [⟨9, str "a", [str "http://x:1"], []⟩], [], none⟩ : Cluster).removed =
      (⟨7, str "e", [⟨1, str "a", [str "http://x:1"], []⟩], [], none⟩ : Cluster).removed :=
  (validateAndAssignIDs_spec
      (⟨7, str "e", [⟨1, str "a", [str "http://x:1"], []⟩], [], none⟩ : Cluster)
      [⟨9, str "b", [str "http://x:1"], []⟩]).2
    (⟨7, str "e", [⟨9, str "a", [str "http://x:1"], []⟩], [], none⟩ : Cluster) (by decide)

/-! ### C6 — DNS-SRV bootstrap labels (corrected: a self address discovered
in both passes is emitted twice)

`updateNodeMap` (src/etcdmain/etcd.go:301-327) appends one part per
resolvable SRV answer of each pass; nothing deduplicates a self-matching
address that both queries return. -/

/-- The per-pass loop, in closed form, for a non-empty caller name: parts
are appended in discovery order; self addresses take the caller's name,
others the running counter, which advances only on non-self entries. The
non-emptiness hypothesis is what keeps the `n == ""` fallback
(etcd.go:319-322) from firing on a self match. -/
theorem processSRV_spec (resolve : Str → Option Str) (name : Str) (tcpAPUrls : List Str)
    (pre : Str) (hname : name ≠ []) : ∀ (entries : List SRV) (parts : List Str) (k : Nat),
    processSRV resolve name tcpAPUrls pre entries (parts, k) =
      (parts ++ specParts name tcpAPUrls (srvResolved resolve pre entries) k,
       k + countNonSelf tcpAPUrls (srvResolved resolve pre entries))
  | [], parts, k => by simp [processSRV, srvResolved, specParts, countNonSelf]
  | srv :: rest, parts, k => by
    unfold processSRV
    cases hr : resolve (joinHostPort srv.target srv.port) with
    | none =>
      rw [processSRV_spec resolve name tcpAPUrls pre hname rest parts k]
      simp [srvResolved, hr]
    | some addr =>
      dsimp only
      by_cases hself : addr ∈ tcpAPUrls
      · rw [if_pos hself, if_neg hname,
          processSRV_spec resolve name tcpAPUrls pre hname rest _ k]
        simp [srvResolved, hr, specParts, hself, countNonSelf, List.append_assoc]
      · rw [if_neg hself, if_pos rfl,
          processSRV_spec resolve name tcpAPUrls pre hname rest _ (k + 1)]
        simp [srvResolved, hr, specParts, hself, countNonSelf, List.append_assoc,
          Nat.add_assoc, Nat.add_comm 1]

/-- The closed-form labels split over concatenated passes: the second pass
continues the counter after the first pass's non-self entries. -/
theorem specParts_append (name : Str) (selfAddrs : List Str) :
    ∀ (r1 r2 : List (Str × Str)) (k : Nat),
    specParts name selfAddrs (r1 ++ r2) k =
      specParts name selfAddrs r1 k ++
        specParts name selfAddrs r2 (k + countNonSelf selfAddrs r1)
  | [], r2, k => by simp [specParts, countNonSelf]
  | (addr, pre) :: r1, r2, k => by
    by_cases hself : addr ∈ selfAddrs <;>
      simp [specParts, hself, countNonSelf, specParts_append name selfAddrs r1 r2,
        Nat.add_assoc, Nat.add_comm 1]

/-- C6 (amended): when the caller's name is non-empty, the advertised URLs
resolve and at least one SRV query succeeds, the synthesized string
consists of one `label=prefix+addr` part per resolvable discovered
address, SSL pass first: every address matching a resolved self-address is
labeled with the caller's name — once per pass that discovers it, so an
address in both SRV responses is emitted twice — and every other address
takes the next integer from a single counter starting at 0 across both
passes in discovery order; the returned token is the supplied one. (With
an empty caller name the `n == ""` fallback of etcd.go:319-322 labels
every entry, self included, with the counter.) -/
theorem genDNS_labels (resolve : Str → Option Str) (name tok : Str)
    (apurls : List URLRec) (ssl plain : Option (List SRV)) (selfAddrs : List Str)
    (hname : name ≠ [])
    (hres : resolveAll resolve (apurls.map URLRec.host) = some selfAddrs)
    (hok : ssl ≠ none ∨ plain ≠ none) :
    genDNSClusterString resolve name tok apurls ssl plain =
      some (intercalateChar ','
        (specParts name selfAddrs
          (srvResolved resolve (str "https://") (ssl.getD []) ++
           srvResolved resolve (str "http://") (plain.getD [])) 0), tok) := by
  unfold genDNSClusterString
  rw [hres]
  cases ssl with
  | none =>
    cases plain with
    | none => simp at hok
    | some pl =>
      dsimp only
      rw [processSRV_spec resolve name selfAddrs _ hname]
      simp [srvResolved]
  | some sl =>
    cases plain with
    | none =>
      dsimp only
      rw [processSRV_spec resolve name selfAddrs _ hname]
      simp [srvResolved]
    | some pl =>
      dsimp only
      rw [processSRV_spec resolve name selfAddrs _ hname,
        processSRV_spec resolve name selfAddrs _ hname]
      simp [specParts_append]

/-- C6 witness: the fourth `TestGenDNSClusterString` table entry — three
SSL answers, one plaintext answer, the first SSL answer matching the
advertised `https://10.0.0.1:2480`. -/
theorem genDNS_labels_witness :
    genDNSClusterString (fun s => some s) (str "dnsClusterTest") (str "token")
        [⟨str "https", str "10.0.0.1:2480"⟩]
        (some [⟨str "10.0.0.1", 2480⟩, ⟨str "10.0.0.2", 2480⟩, ⟨str "10.0.0.3", 2480⟩])
        (some [⟨str "10.0.0.1", 7001⟩]) =
      some (intercalateChar ','
        (specParts (str "dnsClusterTest") [str "10.0.0.1:2480"]
          (srvResolved (fun s => some s) (str "https://")
            [⟨str "10.0.0.1", 2480⟩, ⟨str "10.0.0.2", 2480⟩, ⟨str "10.0.0.3", 2480⟩] ++
           srvResolved (fun s => some s) (str "http://") [⟨str "10.0.0.1", 7001⟩]) 0),
        str "token") :=
  genDNS_labels _ _ _ _ _ _ _ (by decide) (by decide) (Or.inl (by decide))

set_option maxRecDepth 1000000 in
/-- C6 counterexample to "emitted exactly once, the SSL pass winning the
tie": with the same self-matching `10.0.0.1:2480` in both SRV responses,
the synthesized string carries the address twice — once per pass, both
labeled with the caller's name. -/
theorem dns_self_emitted_twice_counterexample :
    genDNSClusterString (fun s => some s) (str "dnsClusterTest") (str "token")
        [⟨str "https", str "10.0.0.1:2480"⟩]
        (some [⟨str "10.0.0.1", 2480⟩]) (some [⟨str "10.0.0.1", 2480⟩]) =
      some (str "dnsClusterTest=https://10.0.0.1:2480,dnsClusterTest=http://10.0.0.1:2480",
        str "token") ∧
    ((splitOnChar ','
        (str "dnsClusterTest=https://10.0.0.1:2480,dnsClusterTest=http://10.0.0.1:2480")).countP
      fun e => (str "10.0.0.1:2480").isSuffixOf e) = 2 := by
  exact ⟨by decide, by decide⟩

/-- The four `TestGenDNSClusterString` table entries
(src/unnamed/part_000:63-136), checked against the embedding with the
identity resolver (the test's hosts are IP literals). -/
theorem genDNSTestVectors :
    genDNSClusterString (fun s => some s) (str "dnsClusterTest") (str "token") []
        (some []) (some []) = some ([], str "token") ∧
    genDNSClusterString (fun s => some s) (str "dnsClusterTest") (str "token") []
        (some [⟨str "10.0.0.1", 2480⟩, ⟨str "10.0.0.2", 2480⟩, ⟨str "10.0.0.3", 2480⟩])
        (some []) =
      some (str "0=https://10.0.0.1:2480,1=https://10.0.0.2:2480,2=https://10.0.0.3:2480",
        str "token") ∧
    genDNSClusterString (fun s => some s) (str "dnsClusterTest") (str "token") []
        (some [⟨str "10.0.0.1", 2480⟩, ⟨str "10.0.0.2", 2480⟩, ⟨str "10.0.0.3", 2480⟩])
        (some [⟨str "10.0.0.1", 7001⟩]) =
      some (str
        "0=https://10.0.0.1:2480,1=https://10.0.0.2:2480,2=https://10.0.0.3:2480,3=http://10.0.0.1:7001",
        str "token") ∧
    genDNSClusterString (fun s => some s) (str "dnsClusterTest") (str "token")
        [⟨str "https", str "10.0.0.1:2480"⟩]
        (some [⟨str "10.0.0.1", 2480⟩, ⟨str "10.0.0.2", 2480⟩, ⟨str "10.0.0.3", 2480⟩])
        (some [⟨str "10.0.0.1", 7001⟩]) =
      some (str
        "dnsClusterTest=https://10.0.0.1:2480,0=https://10.0.0.2:2480,1=https://10.0.0.3:2480,2=http://10.0.0.1:7001",
        str "token") := by
  refine ⟨?_, ?_, ?_, ?_⟩ <;> decide

/-- With an empty caller name the `n == ""` fallback (etcd.go:319-322)
fires even on a self match: the self-matching address is labeled with the
counter, not with the (empty) name. -/
theorem genDNS_empty_name_counter_labels :
    genDNSClusterString (fun s => some s) [] (str "token")
        [⟨str "https", str "10.0.0.1:2480"⟩]
        (some [⟨str "10.0.0.1", 2480⟩]) (some []) =
      some (str "0=https://10.0.0.1:2480", str "token") := by
  decide

/-! ### C4 — static bootstrap structure and determinism -/

/-- Under success, the build loop appends exactly one member per group, in
group order. -/
theorem buildMembers_ok (cn : Str) : ∀ (gs : List (Str × List Str)) (acc ms : List Member),
    buildMembers cn gs acc = .ok ms →
    ms = acc ++ gs.map fun g => NewMember g.1 g.2 cn none
  | [], acc, ms, h => by
    simp [buildMembers] at h
    simp [h]
  | (name, urls) :: gs, acc, ms, h => by
    rw [buildMembers] at h
    split at h
    · cases h
    · split at h
      · cases h
      · dsimp only at h
        split at h
        · cases h
        · have := buildMembers_ok cn gs (acc ++ [NewMember name urls cn none]) ms h
          simp [this]

/-- Removing a key's group yields a sublist. -/
theorem removeKey_sublist (k : Str) : ∀ gs : List (Str × List Str), (removeKey k gs).Sublist gs
  | [] => .slnil
  | g :: gs => by
    rw [removeKey]
    by_cases h : g.1 = k
    · rw [if_pos h]
      exact (removeKey_sublist k gs).cons g
    · rw [if_neg h]
      exact (removeKey_sublist k gs).cons₂ g

/-- After `removeKey k`, the key `k` is gone. -/
theorem not_mem_keys_removeKey (k : Str) : ∀ gs : List (Str × List Str),
    k ∉ (removeKey k gs).map Prod.fst
  | [] => by simp [removeKey]
  | g :: gs => by
    rw [removeKey]
    by_cases h : g.1 = k
    · rw [if_pos h]
      exact not_mem_keys_removeKey k gs
    · rw [if_neg h]
      simp only [List.map_cons, List.mem_cons]
      rintro (rfl | h2)
      · exact h rfl
      · exact not_mem_keys_removeKey k gs h2

/-- Grouping yields pairwise-distinct names. -/
theorem groupPairs_keys_nodup : ∀ ps : List (Str × Str), ((groupPairs ps).map Prod.fst).Nodup
  | [] => by simp [groupPairs]
  | (k, v) :: ps => by
    rw [groupPairs]
    simp only [List.map_cons, List.nodup_cons]
    exact ⟨not_mem_keys_removeKey k (groupPairs ps),
      ((removeKey_sublist k (groupPairs ps)).map Prod.fst).nodup (groupPairs_keys_nodup ps)⟩

/-- C4: a successfully parsed static initial-cluster string yields exactly
one member per distinct name (the grouping's names are pairwise distinct)
whose `peerURLs` are all URLs given under that name in first-occurrence
order, and a second run on the identical string and cluster name yields
identical member ids and an identical cluster id. -/
theorem newClusterFromString_structure (name s : Str) (c : Cluster)
    (h : NewClusterFromString name s = .ok c) :
    c.members.map (fun m => (m.name, m.peerURLs)) = groupPairs (parsePairs s) ∧
    ((groupPairs (parsePairs s)).map Prod.fst).Nodup ∧
    (∀ c₂, NewClusterFromString name s = .ok c₂ →
      c₂.members.map Member.ID = c.members.map Member.ID ∧ c₂.id = c.id) := by
  have hmem : c.members = (groupPairs (parsePairs s)).map
      fun g => NewMember g.1 g.2 name none := by
    unfold NewClusterFromString at h
    cases hb : buildMembers name (groupPairs (parsePairs s)) [] <;> rw [hb] at h
    · cases h
    · cases h
      simpa using buildMembers_ok name _ [] _ hb
  refine ⟨?_, groupPairs_keys_nodup _, ?_⟩
  · rw [hmem, List.map_map]
    have hid : ∀ g ∈ groupPairs (parsePairs s),
        ((fun m => (m.name, m.peerURLs)) ∘ fun g => NewMember g.1 g.2 name none) g = g := by
      intro g _
      cases g
      rfl
    rw [List.map_congr_left hid, List.map_id']
  · intro c₂ h₂
    rw [h] at h₂
    cases h₂
    exact ⟨rfl, rfl⟩


set_option maxRecDepth 1000000 in
set_option maxHeartbeats 4000000 in
/-- C4 witness: the member list of `"a=http://x:1"` under cluster name
`"e"` maps back to its parse grouping. -/
theorem newClusterFromString_structure_witness :
    (⟨9027331154003392384, str "e",
      [⟨11102607028087359486, str "a", [str "http://x:1"], []⟩], [],
      none⟩ : Cluster).members.map (fun m => (m.name, m.peerURLs)) =
      groupPairs (parsePairs (str "a=http://x:1")) :=
  (newClusterFromString_structure (str "e") (str "a=http://x:1") _ (by decide)).1


/-! ### C9 — `Members` returns the members sorted by id -/

/-- C9: `Members` returns exactly the cluster's members (a permutation of
the member map's entries), sorted ascending by id. -/
theorem members_exactly_sorted_by_id (c : Cluster) :
    (Members c).Perm c.members ∧ List.Sorted (fun a b => a.ID ≤ b.ID) (Members c) :=
  ⟨List.perm_insertionSort _ _, List.sorted_insertionSort _ _⟩

/-! ### C10 — round-trip of `Cluster.String` through `NewClusterFromString`

String-splitting inverses, the pair/grouping calculus, and the converse
build lemmas, used to re-parse a cluster's own rendering. -/

theorem splitOnChar_ne_nil (c : Char) : ∀ s : Str, splitOnChar c s ≠ []
  | [] => by simp [splitOnChar]
  | a :: rest => by
    rw [splitOnChar]
    cases hs : splitOnChar c rest with
    | nil => simp
    | cons g gs => by_cases h : a = c <;> simp [h]

theorem splitOnChar_no_sep (c : Char) : ∀ s : Str, c ∉ s → splitOnChar c s = [s]
  | [], _ => rfl
  | a :: rest, h => by
    have ha : a ≠ c := fun he => h (he ▸ List.mem_cons_self a rest)
    have hr : c ∉ rest := fun hm => h (List.mem_cons_of_mem a hm)
    rw [splitOnChar, splitOnChar_no_sep c rest hr]
    dsimp only
    rw [if_neg ha]

theorem splitOnChar_sep_append (c : Char) : ∀ p t : Str, c ∉ p →
    splitOnChar c (p ++ c :: t) = p :: splitOnChar c t
  | [], t, _ => by
    rw [List.nil_append, splitOnChar]
    cases hs : splitOnChar c t with
    | nil => exact absurd hs (splitOnChar_ne_nil c t)
    | cons g gs => simp
  | a :: p, t, h => by
    have ha : a ≠ c := fun he => h (he ▸ List.mem_cons_self a p)
    have hp : c ∉ p := fun hm => h (List.mem_cons_of_mem a hm)
    rw [List.cons_append, splitOnChar, splitOnChar_sep_append c p t hp]
    dsimp only
    rw [if_neg ha]

theorem splitOnChar_intercalate (c : Char) : ∀ parts : List Str, parts ≠ [] →
    (∀ p ∈ parts, c ∉ p) → splitOnChar c (intercalateChar c parts) = parts
  | [], h, _ => absurd rfl h
  | [p], _, hall => by
    rw [intercalateChar, splitOnChar_no_sep c p (hall p (by simp))]
  | p :: q :: parts, _, hall => by
    rw [show intercalateChar c (p :: q :: parts) = p ++ c :: intercalateChar c (q :: parts)
        from rfl,
      splitOnChar_sep_append c p _ (hall p (by simp)),
      splitOnChar_intercalate c (q :: parts) (fun hh => List.noConfusion hh)
        (fun r hr => hall r (by simp [hr]))]

theorem mem_splitOnChar (c : Char) : ∀ s seg, seg ∈ splitOnChar c s → c ∉ seg
  | [], seg, h => by
    simp [splitOnChar] at h
    simp [h]
  | a :: rest, seg, h => by
    rw [splitOnChar] at h
    cases hs : splitOnChar c rest with
    | nil => exact absurd hs (splitOnChar_ne_nil c rest)
    | cons g gs =>
      rw [hs] at h
      dsimp only at h
      by_cases ha : a = c
      · rw [if_pos ha] at h
        rcases List.mem_cons.mp h with h1 | h1
        · simp [h1]
        · exact mem_splitOnChar c rest seg (hs ▸ h1)
      · rw [if_neg ha] at h
        rcases List.mem_cons.mp h with h1 | h1
        · subst h1
          intro hm
          rcases List.mem_cons.mp hm with hm | hm
          · exact ha hm.symm
          · exact mem_splitOnChar c rest g (hs ▸ List.mem_cons_self g gs) hm
        · exact mem_splitOnChar c rest seg (hs ▸ List.mem_cons_of_mem g h1)

theorem splitFirstEq_key_no_eq : ∀ s : Str, '=' ∉ (splitFirstEq s).1
  | [] => by simp [splitFirstEq]
  | a :: rest => by
    rw [splitFirstEq]
    by_cases ha : a = '='
    · rw [if_pos ha]
      simp
    · rw [if_neg ha]
      dsimp only
      intro hm
      rcases List.mem_cons.mp hm with hm | hm
      · exact ha hm.symm
      · exact splitFirstEq_key_no_eq rest hm

theorem splitFirstEq_recomb : ∀ s : Str,
    s = (splitFirstEq s).1 ++
      (match (splitFirstEq s).2 with
       | some v => '=' :: v
       | none => [])
  | [] => rfl
  | a :: rest => by
    rw [splitFirstEq]
    by_cases ha : a = '='
    · rw [if_pos ha]
      simp [ha]
    · rw [if_neg ha]
      dsimp only
      rw [List.cons_append]
      exact congrArg (a :: ·) (splitFirstEq_recomb rest)

theorem splitFirstEq_append : ∀ n u : Str, '=' ∉ n →
    splitFirstEq (n ++ '=' :: u) = (n, some u)
  | [], u, _ => by simp [splitFirstEq]
  | a :: n, u, h => by
    have ha : a ≠ '=' := fun he => h (he ▸ List.mem_cons_self a n)
    have hn : '=' ∉ n := fun hm => h (List.mem_cons_of_mem a hm)
    rw [List.cons_append, splitFirstEq, if_neg ha, splitFirstEq_append n u hn]

theorem filterMap_decode (l : List Str) (h : ∀ p ∈ l, p ≠ []) :
    (l.filterMap fun seg => if seg = [] then none else some (decodeEntry seg)) =
      l.map decodeEntry := by
  induction l with
  | nil => rfl
  | cons p ps ih =>
    rw [List.filterMap_cons, List.map_cons]
    rw [if_neg (h p (by simp))]
    rw [ih fun q hq => h q (by simp [hq])]

theorem parsePairs_intercalate (parts : List Str)
    (hne : ∀ p ∈ parts, p ≠ []) (hnc : ∀ p ∈ parts, ',' ∉ p) :
    parsePairs (intercalateChar ',' parts) = parts.map decodeEntry := by
  cases hp : parts with
  | nil => rfl
  | cons p ps =>
    unfold parsePairs
    rw [← hp, splitOnChar_intercalate ',' parts (by simp [hp]) hnc, filterMap_decode parts hne]

theorem chars_key_sub (seg : Str) : ∀ x ∈ (splitFirstEq seg).1, x ∈ seg := by
  intro x hx
  have hr := splitFirstEq_recomb seg
  rw [hr]
  exact List.mem_append_left _ hx

theorem chars_val_sub (seg : Str) : ∀ x ∈ ((splitFirstEq seg).2).getD [], x ∈ seg := by
  intro x hx
  have hr := splitFirstEq_recomb seg
  cases hs : (splitFirstEq seg).2 with
  | none =>
    rw [hs] at hx
    cases hx
  | some v =>
    rw [hs] at hr hx
    rw [hr]
    exact List.mem_append_right _ (List.mem_cons_of_mem _ hx)

theorem mem_parsePairs (s : Str) (pr : Str × Str) (h : pr ∈ parsePairs s) :
    '=' ∉ pr.1 ∧ ',' ∉ pr.1 ∧ ',' ∉ pr.2 := by
  unfold parsePairs at h
  rw [List.mem_filterMap] at h
  obtain ⟨seg, hseg, hdec⟩ := h
  by_cases he : seg = []
  · rw [if_pos he] at hdec
    cases hdec
  · rw [if_neg he] at hdec
    cases hdec
    have hcom := mem_splitOnChar ',' s seg hseg
    exact ⟨splitFirstEq_key_no_eq seg,
      fun hm => hcom (chars_key_sub seg ',' hm),
      fun hm => hcom (chars_val_sub seg ',' hm)⟩

theorem mem_removeKey (k : Str) : ∀ (gs : List (Str × List Str)) (g : Str × List Str),
    g ∈ removeKey k gs → g ∈ gs ∧ g.1 ≠ k
  | [], g, h => by cases h
  | g' :: gs, g, h => by
    rw [removeKey] at h
    by_cases h1 : g'.1 = k
    · rw [if_pos h1] at h
      obtain ⟨hm, hne⟩ := mem_removeKey k gs g h
      exact ⟨List.mem_cons_of_mem g' hm, hne⟩
    · rw [if_neg h1] at h
      rcases List.mem_cons.mp h with h2 | h2
      · subst h2
        exact ⟨List.mem_cons_self g gs, h1⟩
      · obtain ⟨hm, hne⟩ := mem_removeKey k gs g h2
        exact ⟨List.mem_cons_of_mem g' hm, hne⟩

theorem valuesOf_cons_pos (k : Str) (v : Str) (ps : List (Str × Str)) :
    valuesOf k ((k, v) :: ps) = v :: valuesOf k ps := by
  unfold valuesOf
  rw [List.filter_cons_of_pos (by simp)]
  rfl

theorem valuesOf_cons_neg (k : Str) (pr : Str × Str) (ps : List (Str × Str))
    (h : pr.1 ≠ k) : valuesOf k (pr :: ps) = valuesOf k ps := by
  unfold valuesOf
  rw [List.filter_cons_of_neg (by simpa using h)]

theorem groupPairs_values : ∀ (ps : List (Str × Str)) (g : Str × List Str),
    g ∈ groupPairs ps → g.2 = valuesOf g.1 ps
  | [], g, h => by cases h
  | (k, v) :: ps, g, h => by
    rw [groupPairs] at h
    rcases List.mem_cons.mp h with h1 | h1
    · subst h1
      rw [valuesOf_cons_pos]
    · obtain ⟨hm, hne⟩ := mem_removeKey k (groupPairs ps) g h1
      rw [valuesOf_cons_neg g.1 (k, v) ps (by simpa using fun he => hne he.symm)]
      exact groupPairs_values ps g hm

theorem mem_keys_removeKey (k k' : Str) : ∀ gs : List (Str × List Str),
    k' ∈ (removeKey k gs).map Prod.fst ↔ k' ∈ gs.map Prod.fst ∧ k' ≠ k
  | [] => by simp [removeKey]
  | g :: gs => by
    rw [removeKey]
    by_cases h1 : g.1 = k
    · rw [if_pos h1]
      rw [mem_keys_removeKey k k' gs]
      subst h1
      simp only [List.map_cons, List.mem_cons]
      constructor
      · rintro ⟨hm, hne⟩
        exact ⟨Or.inr hm, hne⟩
      · rintro ⟨hm | hm, hne⟩
        · exact absurd hm hne
        · exact ⟨hm, hne⟩
    · rw [if_neg h1]
      simp only [List.map_cons, List.mem_cons]
      rw [mem_keys_removeKey k k' gs]
      constructor
      · rintro (he | ⟨hm, hne⟩)
        · exact ⟨Or.inl he, fun hk => h1 (he ▸ hk)⟩
        · exact ⟨Or.inr hm, hne⟩
      · rintro ⟨he | hm, hne⟩
        · exact Or.inl he
        · exact Or.inr ⟨hm, hne⟩

theorem mem_groupPairs_keys (k : Str) : ∀ ps : List (Str × Str),
    k ∈ (groupPairs ps).map Prod.fst ↔ k ∈ ps.map Prod.fst
  | [] => by simp [groupPairs]
  | (k', v) :: ps => by
    rw [groupPairs]
    simp only [List.map_cons, List.mem_cons]
    rw [mem_keys_removeKey k' k (groupPairs ps), mem_groupPairs_keys k ps]
    by_cases he : k = k'
    · subst he
      simp
    · simp [he]

theorem valuesOf_perm (k : Str) {ps ps' : List (Str × Str)} (h : ps.Perm ps') :
    (valuesOf k ps).Perm (valuesOf k ps') :=
  (h.filter _).map _

theorem valuesOf_nil_of_not_mem (k : Str) : ∀ ps : List (Str × Str),
    k ∉ ps.map Prod.fst → valuesOf k ps = []
  | [], _ => rfl
  | pr :: ps, h => by
    have h1 : pr.1 ≠ k := fun he => h (by simp [he])
    rw [valuesOf_cons_neg k pr ps h1]
    exact valuesOf_nil_of_not_mem k ps fun hm => h (by simp [hm])

theorem valuesOf_append (k : Str) (ps qs : List (Str × Str)) :
    valuesOf k (ps ++ qs) = valuesOf k ps ++ valuesOf k qs := by
  unfold valuesOf
  rw [List.filter_append, List.map_append]

theorem valuesOf_self_block (k : Str) (vs : List Str) :
    valuesOf k (vs.map fun u => (k, u)) = vs := by
  induction vs with
  | nil => rfl
  | cons v vs ih => rw [List.map_cons, valuesOf_cons_pos, ih]

theorem valuesOf_other_block (k k' : Str) (h : k' ≠ k) (vs : List Str) :
    valuesOf k (vs.map fun u => (k', u)) = [] := by
  induction vs with
  | nil => rfl
  | cons v vs ih => rw [List.map_cons, valuesOf_cons_neg k (k', v) _ h, ih]

theorem valuesOf_pairsFlat : ∀ gs : List (Str × List Str), (gs.map Prod.fst).Nodup →
    ∀ g ∈ gs, valuesOf g.1 (pairsFlat gs) = g.2
  | [], _, g, h => by cases h
  | g' :: gs, hnd, g, h => by
    rw [List.map_cons, List.nodup_cons] at hnd
    rw [pairsFlat, List.map_cons, List.flatten_cons, valuesOf_append]
    rcases List.mem_cons.mp h with h1 | h1
    · subst h1
      rw [valuesOf_self_block, valuesOf_nil_of_not_mem, List.append_nil]
      show g.1 ∉ (pairsFlat gs).map Prod.fst
      rw [pairsFlat]
      intro hm
      rw [List.mem_map] at hm
      obtain ⟨pr, hpr, hfst⟩ := hm
      rw [List.mem_flatten] at hpr
      obtain ⟨blk, hblk, hprblk⟩ := hpr
      rw [List.mem_map] at hblk
      obtain ⟨g2, hg2, hblkeq⟩ := hblk
      subst hblkeq
      rw [List.mem_map] at hprblk
      obtain ⟨u, hu, hpreq⟩ := hprblk
      subst hpreq
      exact hnd.1 (hfst ▸ List.mem_map_of_mem Prod.fst hg2)
    · have hne : g.1 ≠ g'.1 := by
        intro he
        exact hnd.1 (he ▸ List.mem_map_of_mem Prod.fst h1)
      rw [valuesOf_other_block g.1 g'.1 (fun he => hne he.symm), List.nil_append]
      exact valuesOf_pairsFlat gs hnd.2 g h1

theorem mem_keys_pairsFlat (k : Str) (gs : List (Str × List Str))
    (hne : ∀ g ∈ gs, g.2 ≠ []) :
    (k ∈ (pairsFlat gs).map Prod.fst ↔ k ∈ gs.map Prod.fst) := by
  unfold pairsFlat
  constructor
  · intro hm
    rw [List.mem_map] at hm
    obtain ⟨pr, hpr, hfst⟩ := hm
    rw [List.mem_flatten] at hpr
    obtain ⟨blk, hblk, hprblk⟩ := hpr
    rw [List.mem_map] at hblk
    obtain ⟨g, hg, hblkeq⟩ := hblk
    subst hblkeq
    rw [List.mem_map] at hprblk
    obtain ⟨u, hu, hpreq⟩ := hprblk
    subst hpreq
    exact hfst ▸ List.mem_map_of_mem Prod.fst hg
  · intro hm
    rw [List.mem_map] at hm
    obtain ⟨g, hg, hfst⟩ := hm
    cases hu : g.2 with
    | nil => exact absurd hu (hne g hg)
    | cons u us =>
      rw [List.mem_map]
      refine ⟨(g.1, u), ?_, hfst⟩
      rw [List.mem_flatten]
      refine ⟨g.2.map fun u => (g.1, u), List.mem_map_of_mem _ hg, ?_⟩
      rw [hu, List.map_cons]
      exact List.mem_cons_self _ _

theorem buildMembers_ok_groups (cn : Str) : ∀ (gs : List (Str × List Str)) (acc ms : List Member),
    buildMembers cn gs acc = .ok ms →
    ∀ g ∈ gs, g.2 ≠ [] ∧ ∀ u ∈ g.2, validURL u = true
  | [], _, _, _, g, hg => by cases hg
  | (name, urls) :: gs, acc, ms, h, g, hg => by
    rw [buildMembers] at h
    split at h
    · cases h
    · next hchk =>
      split at h
      · cases h
      · next hfind =>
        dsimp only at h
        split at h
        · cases h
        · rcases List.mem_cons.mp hg with h1 | h1
          · subst h1
            constructor
            · intro he
              have he2 : urls = [] := by simpa using he
              subst he2
              simp at hchk
            · intro u hu
              have := List.find?_eq_none.mp hfind u hu
              simpa using this
          · exact buildMembers_ok_groups cn gs _ ms h g h1

theorem buildMembers_ok_ids_nodup (cn : Str) : ∀ (gs : List (Str × List Str)) (acc ms : List Member),
    buildMembers cn gs acc = .ok ms → (acc.map Member.ID).Nodup → (ms.map Member.ID).Nodup
  | [], acc, ms, h, hnd => by
    simp [buildMembers] at h
    subst h
    exact hnd
  | (name, urls) :: gs, acc, ms, h, hnd => by
    rw [buildMembers] at h
    split at h
    · cases h
    · split at h
      · cases h
      · dsimp only at h
        split at h
        · cases h
        · next hdup =>
          refine buildMembers_ok_ids_nodup cn gs _ ms h ?_
          rw [List.map_append]
          simp only [List.map_cons, List.map_nil]
          rw [List.nodup_append]
          refine ⟨hnd, List.nodup_singleton _, ?_⟩
          intro x hx hx1
          simp only [List.mem_singleton] at hx1
          subst hx1
          rw [List.mem_map] at hx
          obtain ⟨m0, hm0, hid⟩ := hx
          have : (acc.any fun x => x.ID = (NewMember name urls cn none).ID) = true := by
            rw [List.any_eq_true]
            exact ⟨m0, hm0, by simpa using hid⟩
          simp [this] at hdup

theorem buildMembers_ok_of (cn : Str) : ∀ (gs : List (Str × List Str)) (acc : List Member),
    (∀ g ∈ gs, g.2 ≠ [] ∧ ∀ u ∈ g.2, validURL u = true) →
    (acc.map Member.ID ++ gs.map fun g => (NewMember g.1 g.2 cn none).ID).Nodup →
    buildMembers cn gs acc = .ok (acc ++ gs.map fun g => NewMember g.1 g.2 cn none)
  | [], acc, _, _ => by simp [buildMembers]
  | (name, urls) :: gs, acc, hgs, hnd => by
    obtain ⟨hne, hval⟩ := hgs (name, urls) (List.mem_cons_self _ _)
    rw [buildMembers]
    rw [if_neg ?hchk]
    case hchk =>
      simp only [Bool.or_eq_true, not_or]
      constructor
      · simpa using hne
      · cases hu : urls with
        | nil => exact absurd hu hne
        | cons u us =>
          have := hval u (hu ▸ List.mem_cons_self u us)
          simpa using validURL_ne_nil this
    rw [show (urls.find? fun u => !validURL u) = none from ?hfind]
    case hfind =>
      rw [List.find?_eq_none]
      intro u hu
      simp [hval u hu]
    dsimp only
    rw [if_neg ?hdup]
    case hdup =>
      intro hany
      rw [List.any_eq_true] at hany
      obtain ⟨m0, hm0, hid⟩ := hany
      simp only [decide_eq_true_eq] at hid
      rw [List.map_cons, List.nodup_append] at hnd
      exact hnd.2.2 (hid ▸ List.mem_map_of_mem Member.ID hm0) (List.mem_cons_self _ _)
    rw [buildMembers_ok_of cn gs (acc ++ [NewMember name urls cn none])
      (fun g hg => hgs g (List.mem_cons_of_mem _ hg)) ?hnd2]
    case hnd2 =>
      rw [List.map_append]
      simp only [List.map_cons, List.map_nil]
      rw [List.map_cons] at hnd
      rw [List.append_assoc]
      exact hnd
    rw [List.append_assoc]
    rfl

theorem newClusterFromString_members (name s : Str) (c : Cluster)
    (h : NewClusterFromString name s = .ok c) :
    c.members = (groupPairs (parsePairs s)).map
      (fun g => NewMember g.1 g.2 name none) ∧
    buildMembers name (groupPairs (parsePairs s)) [] = .ok c.members ∧
    c.id = sha1First8 (((List.insertionSort (· ≤ ·)
      (c.members.map Member.ID)).map be8).flatten) := by
  unfold NewClusterFromString at h
  cases hb : buildMembers name (groupPairs (parsePairs s)) [] <;> rw [hb] at h
  · cases h
  · cases h
    refine ⟨?_, ?_, rfl⟩
    · simpa using buildMembers_ok name _ [] _ hb
    · simpa [genID] using hb





theorem genID_id (c : Cluster) :
    (genID c).id = sha1First8 (((List.insertionSort (· ≤ ·)
      (c.members.map Member.ID)).map be8).flatten) := rfl

theorem genID_members (c : Cluster) : (genID c).members = c.members := rfl

set_option maxHeartbeats 1000000 in
/-- C10: re-parsing a cluster's own rendering round-trips: it succeeds,
yields the same cluster id, and the members carry the same ids, names and
peer-URL sets (their profiles are a permutation). -/
theorem newClusterFromString_roundtrip (name s : Str) (c : Cluster)
    (h : NewClusterFromString name s = .ok c) :
    ∃ c', NewClusterFromString name (clusterString c) = .ok c' ∧
      c'.id = c.id ∧
      (c'.members.map memberProfile).Perm (c.members.map memberProfile) := by
  obtain ⟨hmem, hb, hcid⟩ := newClusterFromString_members name s c h
  have hgroups := buildMembers_ok_groups name _ _ _ hb
  have hidnodup : (c.members.map Member.ID).Nodup :=
    buildMembers_ok_ids_nodup name _ _ _ hb (by simp)
  have hkeysnodup := groupPairs_keys_nodup (parsePairs s)
  have hkeyprops : ∀ g ∈ groupPairs (parsePairs s), '=' ∉ g.1 ∧ ',' ∉ g.1 := by
    intro g hg
    have h1 : g.1 ∈ (parsePairs s).map Prod.fst :=
      (mem_groupPairs_keys g.1 (parsePairs s)).mp (List.mem_map_of_mem Prod.fst hg)
    rw [List.mem_map] at h1
    obtain ⟨pr, hpr, hfst⟩ := h1
    obtain ⟨he, hc1, _⟩ := mem_parsePairs s pr hpr
    exact ⟨hfst ▸ he, hfst ▸ hc1⟩
  have hvalsOfps : ∀ g ∈ groupPairs (parsePairs s), g.2 = valuesOf g.1 (parsePairs s) :=
    groupPairs_values (parsePairs s)
  have hvalprops : ∀ g ∈ groupPairs (parsePairs s), ∀ u ∈ g.2, ',' ∉ u := by
    intro g hg u hu
    rw [hvalsOfps g hg] at hu
    unfold valuesOf at hu
    rw [List.mem_map] at hu
    obtain ⟨pr, hpr, hsnd⟩ := hu
    obtain ⟨_, _, hc2⟩ := mem_parsePairs s pr (List.mem_of_mem_filter hpr)
    exact hsnd ▸ hc2
  have hsl : (c.members.map fun m => m.peerURLs.map fun u => m.name ++ '=' :: u).flatten =
      ((groupPairs (parsePairs s)).map fun g => g.2.map fun u => g.1 ++ '=' :: u).flatten := by
    rw [hmem, List.map_map]
    rfl
  have hslprops : ∀ p ∈ ((groupPairs (parsePairs s)).map
      fun g => g.2.map fun u => g.1 ++ '=' :: u).flatten, p ≠ [] ∧ ',' ∉ p := by
    intro p hp
    rw [List.mem_flatten] at hp
    obtain ⟨blk, hblk, hpblk⟩ := hp
    rw [List.mem_map] at hblk
    obtain ⟨g, hg, hblkeq⟩ := hblk
    subst hblkeq
    rw [List.mem_map] at hpblk
    obtain ⟨u, hu, hpeq⟩ := hpblk
    subst hpeq
    refine ⟨by simp, ?_⟩
    intro hcm
    rcases List.mem_append.mp hcm with hcm | hcm
    · exact (hkeyprops g hg).2 hcm
    · rcases List.mem_cons.mp hcm with hcm | hcm
      · cases hcm
      · exact hvalprops g hg u hu hcm
  have hP : parsePairs (clusterString c) =
      (List.insertionSort (· ≤ ·)
        (((groupPairs (parsePairs s)).map
          fun g => g.2.map fun u => g.1 ++ '=' :: u).flatten)).map decodeEntry := by
    unfold clusterString
    rw [hsl]
    refine parsePairs_intercalate _ ?_ ?_
    · intro p hp
      exact (hslprops p ((List.perm_insertionSort _ _).mem_iff.mp hp)).1
    · intro p hp
      exact (hslprops p ((List.perm_insertionSort _ _).mem_iff.mp hp)).2
  have hPperm : (parsePairs (clusterString c)).Perm
      (pairsFlat (groupPairs (parsePairs s))) := by
    rw [hP]
    refine ((List.perm_insertionSort _ _).map decodeEntry).trans ?_
    rw [List.map_flatten, List.map_map]
    unfold pairsFlat
    have hcg : ((groupPairs (parsePairs s)).map
        (List.map decodeEntry ∘ fun g => g.2.map fun u => g.1 ++ '=' :: u)) =
        (groupPairs (parsePairs s)).map fun g => g.2.map fun u => (g.1, u) := by
      refine List.map_congr_left fun g hg => ?_
      show (g.2.map fun u => g.1 ++ '=' :: u).map decodeEntry = _
      rw [List.map_map]
      refine List.map_congr_left fun u _ => ?_
      show decodeEntry (g.1 ++ '=' :: u) = (g.1, u)
      unfold decodeEntry
      rw [splitFirstEq_append g.1 u (hkeyprops g hg).1]
      rfl
    rw [hcg]
  -- keys of the reparse
  have hkeysmem : ∀ k, k ∈ (groupPairs (parsePairs (clusterString c))).map Prod.fst ↔
      k ∈ (groupPairs (parsePairs s)).map Prod.fst := by
    intro k
    rw [mem_groupPairs_keys]
    rw [(hPperm.map Prod.fst).mem_iff]
    exact mem_keys_pairsFlat k _ fun g hg => (hgroups g hg).1
  have hkeysperm : ((groupPairs (parsePairs (clusterString c))).map Prod.fst).Perm
      ((groupPairs (parsePairs s)).map Prod.fst) :=
    (List.perm_ext_iff_of_nodup (groupPairs_keys_nodup _) hkeysnodup).mpr hkeysmem
  -- values of the reparse, per key
  have hvals' : ∀ g' ∈ groupPairs (parsePairs (clusterString c)),
      (g'.2).Perm (valuesOf g'.1 (parsePairs s)) := by
    intro g' hg'
    rw [groupPairs_values _ g' hg']
    refine (valuesOf_perm g'.1 hPperm).trans ?_
    have hk : g'.1 ∈ (groupPairs (parsePairs s)).map Prod.fst :=
      (hkeysmem g'.1).mp (List.mem_map_of_mem Prod.fst hg')
    rw [List.mem_map] at hk
    obtain ⟨g, hg, hfst⟩ := hk
    rw [← hfst, valuesOf_pairsFlat _ hkeysnodup g hg, hvalsOfps g hg]
  -- the common profile function, keyed by name
  have hFgs : ∀ g ∈ groupPairs (parsePairs s),
      memberProfile (NewMember g.1 g.2 name none) =
        ((NewMember g.1 (valuesOf g.1 (parsePairs s)) name none).ID, g.1,
          List.insertionSort (· ≤ ·) (valuesOf g.1 (parsePairs s))) := by
    intro g hg
    rw [show memberProfile (NewMember g.1 g.2 name none) =
      ((NewMember g.1 g.2 name none).ID, g.1, List.insertionSort (· ≤ ·) g.2) from rfl]
    rw [hvalsOfps g hg]
  have hFgs' : ∀ g' ∈ groupPairs (parsePairs (clusterString c)),
      memberProfile (NewMember g'.1 g'.2 name none) =
        ((NewMember g'.1 (valuesOf g'.1 (parsePairs s)) name none).ID, g'.1,
          List.insertionSort (· ≤ ·) (valuesOf g'.1 (parsePairs s))) := by
    intro g' hg'
    rw [show memberProfile (NewMember g'.1 g'.2 name none) =
      ((NewMember g'.1 g'.2 name none).ID, g'.1, List.insertionSort (· ≤ ·) g'.2) from rfl]
    simp only [NewMember]
    rw [insertionSort_eq_of_perm (hvals' g' hg')]
  -- the reparse build succeeds
  have hgroups' : ∀ g' ∈ groupPairs (parsePairs (clusterString c)),
      g'.2 ≠ [] ∧ ∀ u ∈ g'.2, validURL u = true := by
    intro g' hg'
    have hk : g'.1 ∈ (groupPairs (parsePairs s)).map Prod.fst :=
      (hkeysmem g'.1).mp (List.mem_map_of_mem Prod.fst hg')
    rw [List.mem_map] at hk
    obtain ⟨g, hg, hfst⟩ := hk
    have hvp : (g'.2).Perm g.2 := by
      refine (hvals' g' hg').trans ?_
      rw [← hfst, ← hvalsOfps g hg]
    constructor
    · intro he
      rw [he] at hvp
      exact (hgroups g hg).1 (List.Perm.nil_eq hvp).symm
    · intro u hu
      exact (hgroups g hg).2 u (hvp.mem_iff.mp hu)
  -- profiles of both sides through the common key function
  have hmapc : c.members.map memberProfile =
      ((groupPairs (parsePairs s)).map Prod.fst).map (fun k =>
        ((NewMember k (valuesOf k (parsePairs s)) name none).ID, k,
          List.insertionSort (· ≤ ·) (valuesOf k (parsePairs s)))) := by
    rw [hmem, List.map_map, List.map_map]
    exact List.map_congr_left fun g hg => hFgs g hg
  have hprofiles' : (((groupPairs (parsePairs (clusterString c))).map
        (fun g => NewMember g.1 g.2 name none)).map memberProfile) =
      ((groupPairs (parsePairs (clusterString c))).map Prod.fst).map (fun k =>
        ((NewMember k (valuesOf k (parsePairs s)) name none).ID, k,
          List.insertionSort (· ≤ ·) (valuesOf k (parsePairs s)))) := by
    rw [List.map_map, List.map_map]
    exact List.map_congr_left fun g hg => hFgs' g hg
  have hprofperm : ((((groupPairs (parsePairs (clusterString c))).map
        (fun g => NewMember g.1 g.2 name none)).map memberProfile)).Perm
      (c.members.map memberProfile) := by
    rw [hprofiles', hmapc]
    exact hkeysperm.map _
  have hidseq : ∀ X : List Member,
      (X.map memberProfile).map (fun t => t.1) = X.map Member.ID := by
    intro X
    rw [List.map_map]
    rfl
  have hidsperm : (((groupPairs (parsePairs (clusterString c))).map
        (fun g => NewMember g.1 g.2 name none)).map Member.ID).Perm
      (c.members.map Member.ID) := by
    have := hprofperm.map (fun t : Nat × Str × List Str => t.1)
    rwa [hidseq, hidseq] at this
  have hidnodup' : (((groupPairs (parsePairs (clusterString c))).map
      (fun g => NewMember g.1 g.2 name none)).map Member.ID).Nodup :=
    hidsperm.symm.nodup hidnodup
  have hbuild' : buildMembers name (groupPairs (parsePairs (clusterString c))) [] =
      .ok ([] ++ (groupPairs (parsePairs (clusterString c))).map
        (fun g => NewMember g.1 g.2 name none)) := by
    refine buildMembers_ok_of name _ [] hgroups' ?_
    rw [List.map_nil, List.nil_append]
    have heq : ((groupPairs (parsePairs (clusterString c))).map
        fun g => (NewMember g.1 g.2 name none).ID) =
        (((groupPairs (parsePairs (clusterString c))).map
          (fun g => NewMember g.1 g.2 name none)).map Member.ID) := by
      rw [List.map_map]
      rfl
    rw [heq]
    exact hidnodup'
  refine ⟨genID { newCluster name with members :=
    (groupPairs (parsePairs (clusterString c))).map fun g => NewMember g.1 g.2 name none },
    ?_, ?_, ?_⟩
  · unfold NewClusterFromString
    rw [hbuild']
    dsimp only
    rw [List.nil_append]
  · rw [genID_id, hcid]
    congr 1
    dsimp only
    rw [insertionSort_eq_of_perm hidsperm]
  · rw [genID_members]
    dsimp only
    exact hprofperm


set_option maxRecDepth 1000000 in
set_option maxHeartbeats 4000000 in
/-- C10 witness: the one-member bootstrap cluster of `"a=http://x:1"`
re-parses from its own rendering. -/
theorem newClusterFromString_roundtrip_witness :
    ∃ c', NewClusterFromString (str "e")
        (clusterString (⟨9027331154003392384, str "e",
          [⟨11102607028087359486, str "a", [str "http://x:1"], []⟩], [], none⟩ : Cluster)) =
        .ok c' ∧
      c'.id = (⟨9027331154003392384, str "e",
        [⟨11102607028087359486, str "a", [str "http://x:1"], []⟩], [], none⟩ : Cluster).id ∧
      (c'.members.map memberProfile).Perm
        ((⟨9027331154003392384, str "e",
          [⟨11102607028087359486, str "a", [str "http://x:1"], []⟩], [],
          none⟩ : Cluster).members.map memberProfile) :=
  newClusterFromString_roundtrip (str "e") (str "a=http://x:1") _ (by decide)


end Etcd
